import Mathlib

/-!
pbcat: record framing, schema inference and the decode/match pipeline

A shallow embedding of `main.go` of `fbergen/pbcat`.  Files are lists of bytes
(`List Nat`, every byte `< 256`), Go's `int` is a 64-bit two's-complement
integer (`Int` wrapped by `toInt64`), `uint64` is a `Nat` reduced `% 2^64`.
Goroutines that produce on a channel are modelled by the list of values they
send, together with the way the goroutine ends.  The framer is modelled twice:
on the plain list of the bytes still to read, for a file whose read offset no
one else moves, and on the `bufio.Reader` with the read offset of the file, for
the sampling of `inferMessageType`, where `matchMessageType` rewinds the file
while the framer runs; without rewinds the two agree
(`readMessageLocationsShared_undisturbed`).
-/

namespace Pbcat

/-! ## Machine integers -/

/-- Wrap an integer to Go's 64-bit signed `int` (two's complement). -/
def toInt64 (n : Int) : Int := (n + 9223372036854775808) % 18446744073709551616 - 9223372036854775808

/-! ## Library primitives used by the framer -/

/-- Modelled from the spec: `proto.DecodeVarint` of `github.com/golang/protobuf`
is imported by `main.go` and is not part of it.  The loop below is the
documented decoder: 7 data bits per byte, continuation flag in the high bit,
little-endian group order, at most 10 bytes; `shift` runs 0, 7, ..., 63 and the
accumulator is a `uint64`.  It returns `(0, 0)` when the buffer ends inside the
number or when ten bytes all carry the continuation bit. -/
def DecodeVarintLoop : List Nat → Nat → Nat → Nat → Nat × Nat
  | [], _, _, _ => (0, 0)
  | b :: buf, shift, n, x =>
    if shift < 64 then
      let x1 := (x ||| ((b &&& 0x7F) <<< shift)) % 18446744073709551616
      if b &&& 0x80 = 0 then (x1, n + 1)
      else DecodeVarintLoop buf (shift + 7) (n + 1) x1
    else (0, 0)

/-- The call `proto.DecodeVarint(buf)`: the decoded value and the number of
bytes consumed (0 on failure). -/
def DecodeVarint (buf : List Nat) : Nat × Nat := DecodeVarintLoop buf 0 0 0

/-- The result of `bufio.Reader.Peek(n)` on a reader whose unread bytes are
`reader`: the next `n` bytes, or an error (`none`) when fewer than `n` bytes
are left before end of file. -/
def Peek (reader : List Nat) (n : Nat) : Option (List Nat) :=
  if n ≤ reader.length then some (reader.take n) else none

/-- The unread bytes after `bufio.Reader.Discard(n)`: a negative count is an
error that skips nothing, otherwise `n` bytes are skipped, or all that is left
when fewer remain. -/
def Discard (reader : List Nat) (n : Int) : List Nat :=
  if n < 0 then reader else reader.drop n.toNat

/-! ## Record framer -/

/-- The Go struct `messageLocation`: `loc` is an `int`, `msgSize` a `uint64`. -/
structure messageLocation where
  loc : Int
  msgSize : Nat
deriving DecidableEq, Repr

/-- How a producing goroutine ends: it closes its output channel (`closed`),
`log.Fatal` aborts the program (`fatal`), or the Go runtime stops the program
on a run-time panic (`panic`). -/
inductive Ending where
  | closed
  | fatal
  | panic
deriving DecidableEq, Repr

/-- The values sent on the output channel, in order, and how the goroutine
ended. -/
structure Emitted (α : Type) where
  out : List α
  ending : Ending
deriving DecidableEq, Repr

/-- Put one more sent value in front of what the rest of the run sends. -/
def Emitted.push {α : Type} (a : α) : Option (Emitted α) → Option (Emitted α)
  | none => none
  | some r => some ⟨a :: r.out, r.ending⟩

/-- The `for` loop of the goroutine in `readMessageLocations`.  `reader` holds
the bytes not yet discarded, `numMessages` and `location` are the loop
variables.  One unit of `fuel` is one iteration; `none` means the loop is still
running when the fuel is used up. -/
def readMessageLocationsLoop (maxMessages : Int) :
    Nat → List Nat → Nat → Int → Option (Emitted messageLocation)
  | 0, _, _, _ => none
  | fuel + 1, reader, numMessages, location =>
    if maxMessages > 0 ∧ (numMessages : Int) ≥ maxMessages then
      some ⟨[], Ending.closed⟩
    else
      match Peek reader 10 with
      | none => some ⟨[], Ending.closed⟩
      | some varIntBuf =>
        let nb := (DecodeVarint varIntBuf).1
        let numRead := (DecodeVarint varIntBuf).2
        if numRead = 0 then
          some ⟨[], Ending.fatal⟩
        else
          let location1 := toInt64 (location + numRead)
          let location2 := toInt64 (location1 + toInt64 nb)
          Emitted.push ⟨location1, nb⟩
            (readMessageLocationsLoop maxMessages fuel
              (Discard reader (toInt64 (numRead + toInt64 nb))) (numMessages + 1) location2)

/-- The function `readMessageLocations(file, maxMessages)`: the locations sent
on the returned channel when the file is read from its first byte. -/
def readMessageLocations (file : List Nat) (maxMessages : Int) (fuel : Nat) :
    Option (Emitted messageLocation) :=
  readMessageLocationsLoop maxMessages fuel file 0 0

/-! ## Framed files -/

/-- The loop of `proto.EncodeVarint`: little-endian groups of 7 bits, every
byte but the last with the high bit set.  A `uint64` needs at most ten bytes,
which is the bound `k` on the number of bytes written. -/
def EncodeVarintLoop : Nat → Nat → List Nat
  | 0, _ => []
  | k + 1, x => if x > 127 then (128 ||| (x &&& 0x7F)) :: EncodeVarintLoop k (x >>> 7) else [x]

/-- The varint header a writer puts in front of a payload of `x` bytes
(`proto.EncodeVarint` on the `uint64` value `x`). -/
def EncodeVarint (x : Nat) : List Nat := EncodeVarintLoop 10 (x % 18446744073709551616)

/-- One complete record `[varint length][payload]`. -/
def frameRecord (payload : List Nat) : List Nat :=
  EncodeVarint payload.length ++ payload

/-- A file that is the concatenation of complete records. -/
def frame : List (List Nat) → List Nat
  | [] => []
  | p :: ps => frameRecord p ++ frame ps

/-- The locations of the records of a framed file whose first header starts at
byte `start`: each `loc` is the offset of the payload, behind the header. -/
def frameLocs : Int → List (List Nat) → List messageLocation
  | _, [] => []
  | start, p :: ps =>
    ⟨start + (EncodeVarint p.length).length, p.length⟩
      :: frameLocs (start + (frameRecord p).length) ps

/-- Put a list of sent values in front of what the rest of the run sends. -/
def Emitted.pushAll {α : Type} (l : List α) : Option (Emitted α) → Option (Emitted α)
  | none => none
  | some r => some ⟨l ++ r.out, r.ending⟩

/-- The cap of the framer is not reached after `k` emitted locations. -/
def capOpen (maxMessages : Int) (k : Nat) : Prop := ¬ (maxMessages > 0 ∧ (k : Int) ≥ maxMessages)

instance instDecidableCapOpen (maxMessages : Int) (k : Nat) :
    Decidable (capOpen maxMessages k) := by
  unfold capOpen; infer_instance

/-- The framer's locations tile the file from byte `start` on: the header of
the first location starts at `start`, the location's `loc` is the first byte
behind that header, its `msgSize` is the value decoded from the header, and the
next header starts at `loc + msgSize`. -/
def Tiled (file : List Nat) : Int → List messageLocation → Prop
  | _, [] => True
  | start, l :: ls =>
    0 ≤ start ∧
    0 < (DecodeVarint ((file.drop start.toNat).take 10)).2 ∧
    l.loc = start + (DecodeVarint ((file.drop start.toNat).take 10)).2 ∧
    l.msgSize = (DecodeVarint ((file.drop start.toNat).take 10)).1 ∧
    Tiled file (l.loc + l.msgSize) ls

/-! ## The schema registry and the message library -/

/-- The value handed back by `TryGetFieldByName`, as far as `match` looks at
it: a Go `string`, or a value of any other type. -/
inductive FieldValue where
  | str (s : String)
  | other
deriving DecidableEq, Repr

/-- The operations of the external protobuf libraries that `main.go` calls, on
an abstract type `Msg` of messages.  `none` stands for a returned error. -/
structure MessageRegistry (Msg : Type) where
  /-- The call `msgreg.Resolve(url)`: a fresh message of the named type. -/
  Resolve : String → Option Msg
  /-- The call `proto.Unmarshal(buf, msg)`: the message filled from the bytes. -/
  Unmarshal : List Nat → Msg → Option Msg
  /-- Whether the type assertion `msg.(*dynamic.Message)` succeeds. -/
  isDynamic : Msg → Bool
  /-- The call `dm.GetUnknownFields()`: the tags of the unknown fields. -/
  GetUnknownFields : Msg → List Nat
  /-- The call `proto.DiscardUnknown(msg)`. -/
  DiscardUnknown : Msg → Msg
  /-- The call `proto.Size(msg)`, a Go `int`. -/
  Size : Msg → Int
  /-- The call `dm.TryGetFieldByName(name)`. -/
  TryGetFieldByName : Msg → String → Option FieldValue

/-- The Go struct `MatchExpr`; the compiled regular expression is represented
by its `MatchString` method. -/
structure MatchExpr where
  Field : String
  Regexp : String → Bool

/-- The result of a function that may end in `log.Fatal` or in a run-time
panic instead of returning. -/
inductive Run (α : Type) where
  | ok (a : α)
  | fatal
  | panic
deriving DecidableEq, Repr

/-- The positioned read `file.ReadAt(b, off)` with `len(b) = n`: the `n` bytes
at offset `off`, or an error (`none`) when the offset is negative or the file
ends before `n` bytes are read.  Reading into an empty buffer always
succeeds. -/
def ReadAt (file : List Nat) (n : Nat) (off : Int) : Option (List Nat) :=
  if off < 0 then none
  else if n = 0 then some []
  else if off.toNat + n ≤ file.length then some ((file.drop off.toNat).take n)
  else none

/-! ## Decoder pool -/

/-- What a `readMessages` worker does with one location. -/
inductive WorkerStep (Msg : Type) where
  /-- The decoded message is sent on `out`. -/
  | send (m : Msg)
  /-- The worker returns without sending (the positioned read failed). -/
  | stop
  /-- The call `log.Fatal(err)` aborts the program. -/
  | fatal
  /-- The slice expression `msgBuf[:msgSize]` is out of range. -/
  | panic
deriving DecidableEq, Repr

/-- The body of the `for msgLocation := range msgLocations` loop of a
`readMessages` worker.  The buffer `msgBuf` has 256*1024 bytes. -/
def readMessagesStep {Msg : Type} (file : List Nat) (msgname : String)
    (msgreg : MessageRegistry Msg) (msgLocation : messageLocation) : WorkerStep Msg :=
  if msgLocation.msgSize > 256 * 1024 then WorkerStep.panic
  else
    match ReadAt file msgLocation.msgSize msgLocation.loc with
    | none => WorkerStep.stop
    | some buf =>
      match msgreg.Resolve msgname with
      | none => WorkerStep.fatal
      | some msg =>
        match msgreg.Unmarshal buf msg with
        | none => WorkerStep.fatal
        | some m => WorkerStep.send m

/-- The function `readMessages` with `concurrency` workers.  The messages are
listed in the order of their locations; the order in which the workers send
them is not determined by the program.  A worker whose read fails returns, so
one worker fewer is left; when none is left the remaining locations are not
consumed. -/
def readMessages {Msg : Type} (file : List Nat) (msgname : String)
    (msgreg : MessageRegistry Msg) : Nat → List messageLocation → Emitted Msg
  | _, [] => ⟨[], Ending.closed⟩
  | 0, _ :: _ => ⟨[], Ending.closed⟩
  | concurrency + 1, msgLocation :: rest =>
    match readMessagesStep file msgname msgreg msgLocation with
    | WorkerStep.send m =>
      let r := readMessages file msgname msgreg (concurrency + 1) rest
      ⟨m :: r.out, r.ending⟩
    | WorkerStep.stop => readMessages file msgname msgreg concurrency rest
    | WorkerStep.fatal => ⟨[], Ending.fatal⟩
    | WorkerStep.panic => ⟨[], Ending.panic⟩

/-! ## Match filter -/

/-- The goroutine of `match`: `maxMatches` is the global flag `-m`, `numMatches`
the counter of messages sent so far. -/
def matchLoop {Msg : Type} (msgreg : MessageRegistry Msg) (maxMatches : Int)
    (matchExpr : Option MatchExpr) : List Msg → Nat → Emitted Msg
  | [], _ => ⟨[], Ending.closed⟩
  | msg :: msgs, numMatches =>
    if maxMatches > 0 ∧ (numMatches : Int) ≥ maxMatches then ⟨[], Ending.closed⟩
    else
      match matchExpr with
      | some e =>
        match msgreg.TryGetFieldByName msg e.Field with
        | none => matchLoop msgreg maxMatches matchExpr msgs numMatches
        | some FieldValue.other => ⟨[], Ending.panic⟩
        | some (FieldValue.str v) =>
          if e.Regexp v then
            let r := matchLoop msgreg maxMatches matchExpr msgs (numMatches + 1)
            ⟨msg :: r.out, r.ending⟩
          else matchLoop msgreg maxMatches matchExpr msgs numMatches
      | none =>
        let r := matchLoop msgreg maxMatches matchExpr msgs (numMatches + 1)
        ⟨msg :: r.out, r.ending⟩

/-- The first ending that is not a normal close. -/
def Ending.andThen (a b : Ending) : Ending :=
  match a with
  | Ending.closed => b
  | _ => a

/-- The pipeline as wired in `main` (lines 193 to 205, without `--count`):
`readMessageLocations(file, maxMatches)`, `readMessages` with 30 workers, then
`match(msgs, matchExpr)`.  The result lists the messages that reach the
serializer. -/
def mainMatched {Msg : Type} (file : List Nat) (maxMatches : Int)
    (matchExpr : Option MatchExpr) (msgURL : String) (registry : MessageRegistry Msg)
    (fuel : Nat) : Option (Emitted Msg) :=
  match readMessageLocations file maxMatches fuel with
  | none => none
  | some msgLocations =>
    let msgs := readMessages file msgURL registry 30 msgLocations.out
    let matched := matchLoop registry maxMatches matchExpr msgs.out 0
    some ⟨matched.out, msgLocations.ending.andThen (msgs.ending.andThen matched.ending)⟩

/-! ## Type inference -/

/-- The test made on one candidate after `Resolve` in `matchMessageType`: the
buffer unmarshals, a dynamic message has no unknown fields (any other message
has them discarded), and the message has the size of the record. -/
def structurallyCompatible {Msg : Type} (msgreg : MessageRegistry Msg) (msgBuf : List Nat)
    (msgSize : Nat) (msg : Msg) : Bool :=
  match msgreg.Unmarshal msgBuf msg with
  | none => false
  | some m =>
    if msgreg.isDynamic m then
      if (msgreg.GetUnknownFields m).length ≠ 0 then false
      else decide (msgreg.Size m = toInt64 msgSize)
    else decide (msgreg.Size (msgreg.DiscardUnknown m) = toInt64 msgSize)

/-- The inner loop `for _, url := range types` of `matchMessageType`: the
candidates kept for one sample; `Run.fatal` when a candidate does not
resolve. -/
def matchTypes {Msg : Type} (msgreg : MessageRegistry Msg) (msgBuf : List Nat)
    (msgSize : Nat) : List String → Run (List String)
  | [] => Run.ok []
  | url :: types =>
    match msgreg.Resolve url with
    | none => Run.fatal
    | some msg =>
      match matchTypes msgreg msgBuf msgSize types with
      | Run.ok matched =>
        if structurallyCompatible msgreg msgBuf msgSize msg then Run.ok (url :: matched)
        else Run.ok matched
      | Run.fatal => Run.fatal
      | Run.panic => Run.panic

/-- The function `matchMessageType` on the locations received from the
channel: `Run.fatal` when a positioned read fails or a candidate does not
resolve. -/
def matchMessageType {Msg : Type} (file : List Nat) (msgreg : MessageRegistry Msg) :
    List messageLocation → List String → Run (List String)
  | [], types => Run.ok types
  | msgLocation :: rest, types =>
    match ReadAt file msgLocation.msgSize msgLocation.loc with
    | none => Run.fatal
    | some msgBuf =>
      match matchTypes msgreg msgBuf msgLocation.msgSize types with
      | Run.ok matched => matchMessageType file msgreg rest matched
      | Run.fatal => Run.fatal
      | Run.panic => Run.panic

/-- The call `strings.Split(s, ".")`. -/
def splitDot : List Char → List (List Char)
  | [] => [[]]
  | c :: cs =>
    if c = '.' then [] :: splitDot cs
    else
      match splitDot cs with
      | [] => [[c]]
      | x :: xs => (c :: x) :: xs

/-- The call `strings.ToLower(s)`, for strings whose letters are ASCII. -/
def ToLower (s : List Char) : List Char := s.map Char.toLower

/-- The call `strings.Contains(s, substr)`. -/
def Contains : List Char → List Char → Bool
  | [], substr => substr.isEmpty
  | c :: cs, substr => substr.isPrefixOf (c :: cs) || Contains cs substr

/-- The loop `for _, match := range matchedTypes` of `inferMessageType`, which
collects `matchesOnName`.  The index expression `s[1]` panics when the
identifier has no dot. -/
def matchesOnName (fileName : String) : List String → Run (List String)
  | [] => Run.ok []
  | m :: matchedTypes =>
    match (splitDot m.toList).get? 1 with
    | none => Run.panic
    | some protoName =>
      match matchesOnName fileName matchedTypes with
      | Run.ok rest =>
        if Contains (ToLower fileName.toList) (ToLower protoName) then Run.ok (m :: rest)
        else Run.ok rest
      | Run.fatal => Run.fatal
      | Run.panic => Run.panic

/-- The part of `inferMessageType` behind the call of `matchMessageType`. -/
def inferFromMatched (fileName : String) (matchedTypes : List String) : Run String :=
  if matchedTypes.length = 0 then Run.ok ""
  else if matchedTypes.length = 1 then Run.ok (matchedTypes.headD "")
  else
    match matchesOnName fileName matchedTypes with
    | Run.ok onName => if onName.length = 1 then Run.ok (onName.headD "") else Run.ok ""
    | Run.fatal => Run.fatal
    | Run.panic => Run.panic

/-! ### The sample framer and the rewinds of `matchMessageType`

In `inferMessageType` the framer goroutine reads the file through its
`bufio.Reader`, at the read offset of the open file, while `matchMessageType`
calls `file.Seek(0, 0)` on the same file after every sample it has read with
`ReadAt`.  The channel is unbuffered: a location is handed over only when
`matchMessageType` has finished the sample before it, rewind included.  The
rewind that follows a sample may come before or after the reads the framer
makes until it sends the next location; a schedule `sched` gives, for the
sample number `j`, the number of those reads that come before the rewind. -/

/-- The `bufio.Reader` of the framer and the read offset of the file it
shares with the consumer of its channel: `buffered` are the bytes read from the
file and not yet discarded, `offset` is the read offset of the open file, and
`pending = some k` says that the consumer will rewind the file after `k` more
reads of the framer (at the latest before it receives the next location). -/
structure SharedReader where
  buffered : List Nat
  offset : Nat
  pending : Option Nat
deriving DecidableEq, Repr

/-- The method `fill` of `bufio.Reader` on a buffer of 64*1024 bytes: one
`Read` of the file at its read offset into the free part of the buffer.  The
flag says that the read returned no byte (`io.EOF`).  A rewind that is due
resets the offset before the read. -/
def SharedReader.fill (file : List Nat) (r : SharedReader) : SharedReader × Bool :=
  match r.pending with
  | some 0 =>
    (⟨r.buffered ++ (file.drop 0).take (64 * 1024 - r.buffered.length),
      0 + ((file.drop 0).take (64 * 1024 - r.buffered.length)).length, none⟩,
     ((file.drop 0).take (64 * 1024 - r.buffered.length)).isEmpty)
  | some (k + 1) =>
    (⟨r.buffered ++ (file.drop r.offset).take (64 * 1024 - r.buffered.length),
      r.offset + ((file.drop r.offset).take (64 * 1024 - r.buffered.length)).length, some k⟩,
     ((file.drop r.offset).take (64 * 1024 - r.buffered.length)).isEmpty)
  | none =>
    (⟨r.buffered ++ (file.drop r.offset).take (64 * 1024 - r.buffered.length),
      r.offset + ((file.drop r.offset).take (64 * 1024 - r.buffered.length)).length, none⟩,
     ((file.drop r.offset).take (64 * 1024 - r.buffered.length)).isEmpty)

/-- The loop of `bufio.Reader.Peek(10)`: the buffer is filled until it holds
ten bytes or a read fails.  Every read that does not fail adds a byte, so the
loop makes at most eleven rounds. -/
def SharedReader.peekLoop (file : List Nat) : Nat → SharedReader → SharedReader × Option (List Nat)
  | 0, r => (r, none)
  | rounds + 1, r =>
    if 10 ≤ r.buffered.length then (r, some (r.buffered.take 10))
    else
      match SharedReader.fill file r with
      | (r1, true) => (r1, none)
      | (r1, false) => SharedReader.peekLoop file rounds r1

/-- The call `reader.Peek(10)` on the shared reader: the reader afterwards,
and the ten bytes or an error (`none`). -/
def SharedReader.Peek (file : List Nat) (r : SharedReader) : SharedReader × Option (List Nat) :=
  SharedReader.peekLoop file 11 r

/-- The loop of `bufio.Reader.Discard` with `remain` bytes left to skip: an
empty buffer is filled first, then the buffered bytes are skipped.  Every round
that goes on has skipped a byte, so `remain` rounds are enough. -/
def SharedReader.discardLoop (file : List Nat) : Nat → SharedReader → Nat → SharedReader
  | 0, r, _ => r
  | rounds + 1, r, remain =>
    match (if r.buffered.length = 0 then SharedReader.fill file r else (r, false)) with
    | (r1, eof) =>
      if remain - min r1.buffered.length remain = 0 then
        ⟨r1.buffered.drop (min r1.buffered.length remain), r1.offset, r1.pending⟩
      else if eof then
        ⟨r1.buffered.drop (min r1.buffered.length remain), r1.offset, r1.pending⟩
      else
        SharedReader.discardLoop file rounds
          ⟨r1.buffered.drop (min r1.buffered.length remain), r1.offset, r1.pending⟩
          (remain - min r1.buffered.length remain)

/-- The call `reader.Discard(n)` on the shared reader: a negative count is an
error that skips nothing, a count of 0 does nothing. -/
def SharedReader.Discard (file : List Nat) (r : SharedReader) (n : Int) : SharedReader :=
  if n < 0 then r
  else if n = 0 then r
  else SharedReader.discardLoop file n.toNat r n.toNat

/-- The reader when the consumer receives a location: the rewind that follows
the sample before is done by then, and the rewind that follows this sample,
number `j`, is due after `sched j` reads.  Without rewinds (`rewinds = none`)
the reader is unchanged. -/
def SharedReader.handOver (rewinds : Option (Nat → Nat)) (j : Nat) (r : SharedReader) :
    SharedReader :=
  match rewinds with
  | none => r
  | some sched =>
    match r.pending with
    | some _ => ⟨r.buffered, 0, some (sched j)⟩
    | none => ⟨r.buffered, r.offset, some (sched j)⟩

/-- The `for` loop of the goroutine in `readMessageLocations`, on the shared
reader.  The loop is that of `readMessageLocationsLoop`; `Peek` and `Discard`
go through the buffer and the read offset of the file, and the send on `out`
is the point where the consumer takes over the location. -/
def readMessageLocationsSharedLoop (file : List Nat) (maxMessages : Int)
    (rewinds : Option (Nat → Nat)) :
    Nat → SharedReader → Nat → Int → Option (Emitted messageLocation)
  | 0, _, _, _ => none
  | fuel + 1, reader, numMessages, location =>
    if maxMessages > 0 ∧ (numMessages : Int) ≥ maxMessages then
      some ⟨[], Ending.closed⟩
    else
      match SharedReader.Peek file reader with
      | (_, none) => some ⟨[], Ending.closed⟩
      | (reader1, some varIntBuf) =>
        let nb := (DecodeVarint varIntBuf).1
        let numRead := (DecodeVarint varIntBuf).2
        if numRead = 0 then
          some ⟨[], Ending.fatal⟩
        else
          let location1 := toInt64 (location + numRead)
          let location2 := toInt64 (location1 + toInt64 nb)
          Emitted.push ⟨location1, nb⟩
            (readMessageLocationsSharedLoop file maxMessages rewinds fuel
              (SharedReader.Discard file
                (SharedReader.handOver rewinds (numMessages + 1) reader1)
                (toInt64 (numRead + toInt64 nb)))
              (numMessages + 1) location2)

/-- The function `readMessageLocations(file, maxMessages)` on a file opened at
offset 0 whose consumer rewinds the file after every location (`rewinds =
some sched`) or leaves the read offset alone (`rewinds = none`). -/
def readMessageLocationsShared (file : List Nat) (maxMessages : Int)
    (rewinds : Option (Nat → Nat)) (fuel : Nat) : Option (Emitted messageLocation) :=
  readMessageLocationsSharedLoop file maxMessages rewinds fuel ⟨[], 0, none⟩ 0 0

/-- The function `inferMessageType`: `fileName` is `file.Name()`, the path the
file was opened with, and `sched` the schedule of the rewinds that
`matchMessageType` makes while the sample framer runs.  The sample framer has
the cap 10, so eleven iterations are enough for it.  The locations listed are
those the framer sends as long as they are received; `matchMessageType` stops
at the first one it cannot read. -/
def inferMessageType {Msg : Type} (fileName : String) (file : List Nat)
    (msgreg : MessageRegistry Msg) (registryUrls : List String) (sched : Nat → Nat) :
    Run String :=
  match readMessageLocationsShared file 10 (some sched) 11 with
  | none => Run.fatal
  | some msgLocations =>
    match matchMessageType file msgreg msgLocations.out registryUrls with
    | Run.ok matchedTypes =>
      match msgLocations.ending with
      | Ending.closed => inferFromMatched fileName matchedTypes
      | Ending.fatal => Run.fatal
      | Ending.panic => Run.panic
    | Run.fatal => Run.fatal
    | Run.panic => Run.panic

/-- Candidate `url` is structurally compatible with the sample record at
`msgLocation`: the payload is read, the candidate resolves and passes the test
of `matchMessageType`. -/
def compatibleAt {Msg : Type} (file : List Nat) (msgreg : MessageRegistry Msg)
    (msgLocation : messageLocation) (url : String) : Bool :=
  match ReadAt file msgLocation.msgSize msgLocation.loc, msgreg.Resolve url with
  | some msgBuf, some msg => structurallyCompatible msgreg msgBuf msgLocation.msgSize msg
  | _, _ => false

/-! ## Example registries -/

/-- A registry for examples: a message is its type name and its payload;
every type resolves and every buffer unmarshals; the type `pkg.A` accounts for
every byte, any other type leaves every byte of the payload unknown.  The
field `kind` reads `hit` when the payload starts with byte 1 and `miss`
otherwise. -/
def exampleRegistry : MessageRegistry (String × List Nat) where
  Resolve := fun url => some (url, [])
  Unmarshal := fun buf msg => some (msg.1, buf)
  isDynamic := fun _ => true
  GetUnknownFields := fun msg => if msg.1 = "pkg.A" then [] else msg.2
  DiscardUnknown := fun msg => msg
  Size := fun msg => msg.2.length
  TryGetFieldByName := fun msg name =>
    if name = "kind" then
      some (FieldValue.str (if msg.2.head? = some 1 then "hit" else "miss"))
    else none

/-- A registry for examples with one candidate for every way a candidate can
fail the test of `matchMessageType`: `pkg.Broken` does not unmarshal, `pkg.B`
is a dynamic message that leaves every byte unknown, `pkg.Long` has a size one
byte above the record, `pkg.Static` is not a dynamic message and loses a byte
when its unknown fields are discarded; `pkg.A` accounts for every byte. -/
def strictRegistry : MessageRegistry (String × List Nat) where
  Resolve := fun url => some (url, [])
  Unmarshal := fun buf msg => if msg.1 = "pkg.Broken" then none else some (msg.1, buf)
  isDynamic := fun msg => decide (msg.1 ≠ "pkg.Static")
  GetUnknownFields := fun msg => if msg.1 = "pkg.B" then msg.2 else []
  DiscardUnknown := fun msg => (msg.1, msg.2.drop 1)
  Size := fun msg => if msg.1 = "pkg.Long" then msg.2.length + 1 else msg.2.length
  TryGetFieldByName := fun _ _ => none

/-- A registry for examples in which every candidate accounts for every byte
of every record. -/
def permissiveRegistry : MessageRegistry (List Nat) where
  Resolve := fun _ => some []
  Unmarshal := fun buf _ => some buf
  isDynamic := fun _ => true
  GetUnknownFields := fun _ => []
  DiscardUnknown := fun msg => msg
  Size := fun msg => msg.length
  TryGetFieldByName := fun _ _ => none

/-! ## Varint lemmas -/

theorem toInt64_eq (n : Int) (h1 : -9223372036854775808 ≤ n) (h2 : n < 9223372036854775808) :
    toInt64 n = n := by
  unfold toInt64
  omega

theorem and_127 (b : Nat) : b &&& 0x7F = b % 128 :=
  Nat.and_pow_two_sub_one_eq_mod b 7

theorem and_128_of_lt : ∀ b, b < 128 → b &&& 0x80 = 0 := by decide

theorem or_128_of_lt : ∀ y, y < 128 → 128 ||| y = 128 + y := by decide

theorem and_128_high : ∀ y, y < 128 → (128 + y) &&& 0x80 ≠ 0 := by decide

theorem lor_shift (acc y shift : Nat) (h : acc < 2 ^ shift) :
    acc ||| (y <<< shift) = acc + y * 2 ^ shift := by
  rw [Nat.shiftLeft_eq, Nat.lor_comm, Nat.mul_comm y, ← Nat.mul_add_lt_is_or h, Nat.add_comm]

theorem EncodeVarintLoop_length_pos (k x : Nat) : 0 < (EncodeVarintLoop (k + 1) x).length := by
  unfold EncodeVarintLoop
  split <;> simp

theorem EncodeVarintLoop_length_le : ∀ (k x : Nat), (EncodeVarintLoop k x).length ≤ k
  | 0, _ => by simp [EncodeVarintLoop]
  | k + 1, x => by
    unfold EncodeVarintLoop
    split
    · have := EncodeVarintLoop_length_le k (x >>> 7)
      simp only [List.length_cons]
      omega
    · simp

theorem EncodeVarint_length_pos (x : Nat) : 0 < (EncodeVarint x).length :=
  EncodeVarintLoop_length_pos 9 _

theorem EncodeVarint_length_le (x : Nat) : (EncodeVarint x).length ≤ 10 :=
  EncodeVarintLoop_length_le 10 _

/-- Decoding what the encoder wrote gives the value back and consumes exactly
the bytes written, whatever follows them. -/
theorem DecodeVarintLoop_EncodeVarintLoop : ∀ (k x shift n acc : Nat) (rest : List Nat),
    0 < k → x < 128 ^ k → shift + 7 * k ≤ 70 → acc < 2 ^ shift →
    acc + x * 2 ^ shift < 18446744073709551616 →
    DecodeVarintLoop (EncodeVarintLoop k x ++ rest) shift n acc
      = (acc + x * 2 ^ shift, n + (EncodeVarintLoop k x).length)
  | 0, _, _, _, _, _ => by intro h; omega
  | k + 1, x, shift, n, acc, rest => by
    intro _ hx hs hacc hsum
    have hshift : shift < 64 := by omega
    unfold EncodeVarintLoop
    by_cases hbig : x > 127
    · have hk : 0 < k := by
        rcases Nat.eq_zero_or_pos k with h0 | h0
        · subst h0; simp at hx; omega
        · exact h0
      have hdiv : x >>> 7 = x / 128 := by rw [Nat.shiftRight_eq_div_pow]
      have hmod : x % 128 < 128 := Nat.mod_lt _ (by norm_num)
      have hx' : x / 128 < 128 ^ k := by
        rw [Nat.div_lt_iff_lt_mul (by norm_num)]
        rw [pow_succ] at hx
        exact hx
      have hpow : 2 ^ (shift + 7) = 2 ^ shift * 128 := by rw [pow_add]; norm_num
      have hsplit : x * 2 ^ shift = (x % 128) * 2 ^ shift + (x / 128) * 2 ^ (shift + 7) := by
        rw [hpow]
        have := Nat.mod_add_div x 128
        calc x * 2 ^ shift = (x % 128 + 128 * (x / 128)) * 2 ^ shift := by rw [this]
          _ = _ := by ring
      have hacc' : acc + (x % 128) * 2 ^ shift < 2 ^ (shift + 7) := by
        rw [hpow]
        have : (x % 128) * 2 ^ shift ≤ 127 * 2 ^ shift :=
          Nat.mul_le_mul_right _ (by omega)
        have hp : 0 < 2 ^ shift := Nat.pos_pow_of_pos _ (by norm_num)
        nlinarith
      have hsum' : acc + (x % 128) * 2 ^ shift + (x / 128) * 2 ^ (shift + 7)
          < 18446744073709551616 := by
        rw [Nat.add_assoc, ← hsplit]; exact hsum
      have hlt : acc + (x % 128) * 2 ^ shift < 18446744073709551616 := by omega
      have ih := DecodeVarintLoop_EncodeVarintLoop k (x / 128) (shift + 7) (n + 1)
        (acc + (x % 128) * 2 ^ shift) rest hk hx' (by omega) hacc' hsum'
      simp only [hbig, if_true, List.cons_append, DecodeVarintLoop, hshift, and_127,
        or_128_of_lt _ hmod, Nat.add_mod_left, Nat.mod_mod, lor_shift _ _ _ hacc,
        Nat.mod_eq_of_lt hlt, and_128_high _ hmod, if_false, hdiv, ih, List.length_cons]
      rw [hsplit]
      congr 1 <;> omega
    · have hx127 : x < 128 := by omega
      have hlt : acc + x * 2 ^ shift < 18446744073709551616 := hsum
      simp only [hbig, if_false, List.cons_append, List.nil_append, DecodeVarintLoop, hshift,
        if_true, and_127, Nat.mod_eq_of_lt hx127, lor_shift _ _ _ hacc, Nat.mod_eq_of_lt hlt,
        and_128_of_lt _ hx127, List.length_singleton]

theorem DecodeVarint_EncodeVarint (x : Nat) (rest : List Nat) (hx : x < 18446744073709551616) :
    DecodeVarint (EncodeVarint x ++ rest) = (x, (EncodeVarint x).length) := by
  unfold DecodeVarint EncodeVarint
  rw [Nat.mod_eq_of_lt hx]
  have h := DecodeVarintLoop_EncodeVarintLoop 10 x 0 0 0 rest (by norm_num)
    (lt_trans hx (by norm_num)) (by norm_num) (by norm_num) (by simpa using hx)
  simpa using h

/-! ## Framer lemmas -/

theorem loop_cap (N : Int) (fuel : Nat) (reader : List Nat) (k : Nat) (loc : Int)
    (h : ¬ capOpen N k) :
    readMessageLocationsLoop N (fuel + 1) reader k loc = some ⟨[], Ending.closed⟩ := by
  unfold capOpen at h
  rw [readMessageLocationsLoop, if_pos (not_not.mp h)]

theorem loop_short (N : Int) (fuel : Nat) (reader : List Nat) (k : Nat) (loc : Int)
    (h : reader.length < 10) :
    readMessageLocationsLoop N (fuel + 1) reader k loc = some ⟨[], Ending.closed⟩ := by
  rw [readMessageLocationsLoop]
  split
  · rfl
  · simp [Peek, Nat.not_le.mpr h]

/-- One iteration at a well-formed header: the location behind the header is
sent and header and announced payload are discarded. -/
theorem loop_header (N : Int) (fuel n : Nat) (body : List Nat) (k : Nat) (loc : Int)
    (hcap : capOpen N k) (h10 : 10 ≤ (EncodeVarint n ++ body).length) (h0 : 0 ≤ loc)
    (hb : loc + (EncodeVarint n).length + n < 9223372036854775808) :
    readMessageLocationsLoop N (fuel + 1) (EncodeVarint n ++ body) k loc
      = Emitted.push ⟨loc + (EncodeVarint n).length, n⟩
          (readMessageLocationsLoop N fuel (body.drop n) (k + 1)
            (loc + (EncodeVarint n).length + n)) := by
  have hpos := EncodeVarint_length_pos n
  have hle := EncodeVarint_length_le n
  have hn : n < 18446744073709551616 := by omega
  have htake : (EncodeVarint n ++ body).take 10
      = EncodeVarint n ++ body.take (10 - (EncodeVarint n).length) := by
    rw [List.take_append_eq_append_take, List.take_of_length_le hle]
  have hdec := DecodeVarint_EncodeVarint n (body.take (10 - (EncodeVarint n).length)) hn
  have e1 : toInt64 (n : Int) = n := toInt64_eq _ (by omega) (by omega)
  have e2 : toInt64 (loc + ((EncodeVarint n).length : Int)) = loc + (EncodeVarint n).length :=
    toInt64_eq _ (by omega) (by omega)
  have e3 : toInt64 (loc + ((EncodeVarint n).length : Int) + (n : Int))
      = loc + (EncodeVarint n).length + n := toInt64_eq _ (by omega) (by omega)
  have e4 : toInt64 (((EncodeVarint n).length : Int) + (n : Int))
      = (((EncodeVarint n).length + n : Nat) : Int) := by
    rw [toInt64_eq _ (by omega) (by omega)]; push_cast; rfl
  have hdrop : Discard (EncodeVarint n ++ body) (((EncodeVarint n).length + n : Nat) : Int)
      = body.drop n := by
    unfold Discard
    rw [if_neg (by omega), Int.toNat_ofNat, List.drop_append_eq_append_drop]
    rw [List.drop_of_length_le (by omega)]
    simp
  unfold capOpen at hcap
  rw [readMessageLocationsLoop, if_neg hcap]
  simp only [Peek, if_pos h10, htake, hdec, e1, e2, e3, e4, hdrop]
  rw [if_neg (by omega)]

theorem frameRecord_length (p : List Nat) :
    (frameRecord p).length = (EncodeVarint p.length).length + p.length := by
  simp [frameRecord]

/-- One iteration at a complete record. -/
theorem loop_record (N : Int) (fuel : Nat) (p rest : List Nat) (k : Nat) (loc : Int)
    (hcap : capOpen N k) (h10 : 10 ≤ (frameRecord p ++ rest).length) (h0 : 0 ≤ loc)
    (hb : loc + (frameRecord p).length < 9223372036854775808) :
    readMessageLocationsLoop N (fuel + 1) (frameRecord p ++ rest) k loc
      = Emitted.push ⟨loc + (EncodeVarint p.length).length, p.length⟩
          (readMessageLocationsLoop N fuel rest (k + 1) (loc + (frameRecord p).length)) := by
  rw [frameRecord_length] at hb
  have h := loop_header N fuel p.length (p ++ rest) k loc hcap
    (by simpa [frameRecord, List.append_assoc] using h10) h0 (by push_cast at hb ⊢; omega)
  simp only [frameRecord, List.append_assoc] at h ⊢
  rw [h, List.drop_left]
  simp only [List.length_append]
  push_cast
  rw [Int.add_assoc]

theorem frame_append (a b : List (List Nat)) : frame (a ++ b) = frame a ++ frame b := by
  induction a with
  | nil => rfl
  | cons p ps ih => simp [frame, ih, List.append_assoc]

theorem frame_take_drop (records : List (List Nat)) (m : Nat) :
    frame records = frame (records.take m) ++ frame (records.drop m) := by
  rw [← frame_append, List.take_append_drop]

/-- On complete records followed by fewer than ten bytes the framer sends the
locations of a prefix of the records and closes its channel. -/
theorem loop_frame_short (N : Int) (tail : List Nat) (htail : tail.length < 10) :
    ∀ (records : List (List Nat)) (k : Nat) (loc : Int), 0 ≤ loc →
      loc + (frame records).length < 9223372036854775808 →
      ∃ m, m ≤ records.length ∧ ∀ fuel, records.length < fuel →
        readMessageLocationsLoop N fuel (frame records ++ tail) k loc
          = some ⟨frameLocs loc (records.take m), Ending.closed⟩
  | [], k, loc, _, _ => by
    refine ⟨0, le_refl _, ?_⟩
    intro fuel hf
    obtain ⟨f, rfl⟩ : ∃ f, fuel = f + 1 := ⟨fuel - 1, by simp at hf; omega⟩
    simpa [frame, frameLocs] using loop_short N f tail k loc htail
  | p :: ps, k, loc, h0, hb => by
    by_cases hcap : capOpen N k
    · by_cases h10 : 10 ≤ (frameRecord p ++ (frame ps ++ tail)).length
      · have hlen : (frame (p :: ps)).length = (frameRecord p).length + (frame ps).length := by
          simp [frame]
        rw [hlen] at hb
        obtain ⟨m, hm, ih⟩ := loop_frame_short N tail htail ps (k + 1)
          (loc + (frameRecord p).length) (by omega) (by push_cast at hb ⊢; omega)
        refine ⟨m + 1, by simpa using hm, ?_⟩
        intro fuel hf
        obtain ⟨f, rfl⟩ : ∃ f, fuel = f + 1 := ⟨fuel - 1, by simp at hf; omega⟩
        have hstep := loop_record N f p (frame ps ++ tail) k loc hcap h10 h0
          (by push_cast at hb ⊢; omega)
        simp only [frame, List.append_assoc]
        rw [hstep, ih f (by simp at hf; omega)]
        simp [Emitted.push, frameLocs]
      · refine ⟨0, Nat.zero_le _, ?_⟩
        intro fuel hf
        obtain ⟨f, rfl⟩ : ∃ f, fuel = f + 1 := ⟨fuel - 1, by simp at hf; omega⟩
        simp only [frame, List.append_assoc]
        simpa [frameLocs] using loop_short N f _ k loc (Nat.not_le.mp h10)
    · refine ⟨0, Nat.zero_le _, ?_⟩
      intro fuel hf
      obtain ⟨f, rfl⟩ : ∃ f, fuel = f + 1 := ⟨fuel - 1, by simp at hf; omega⟩
      simpa [frameLocs] using loop_cap N f _ k loc hcap

/-- On complete records followed by at least ten more bytes, with the cap out
of reach, the framer sends the location of every record and goes on with what
follows them. -/
theorem loop_frame_append (N : Int) (tail : List Nat) (htail : 10 ≤ tail.length) (fuel : Nat) :
    ∀ (records : List (List Nat)) (k : Nat) (loc : Int), 0 ≤ loc →
      loc + (frame records).length < 9223372036854775808 →
      (N ≤ 0 ∨ ((k + records.length : Nat) : Int) ≤ N) →
      readMessageLocationsLoop N (fuel + records.length) (frame records ++ tail) k loc
        = Emitted.pushAll (frameLocs loc records)
            (readMessageLocationsLoop N fuel tail (k + records.length)
              (loc + (frame records).length))
  | [], k, loc, _, _, _ => by
    cases h : readMessageLocationsLoop N fuel tail k loc <;>
      simp [frame, frameLocs, Emitted.pushAll, h]
  | p :: ps, k, loc, h0, hb, hN => by
    have hlen : (frame (p :: ps)).length = (frameRecord p).length + (frame ps).length := by
      simp [frame]
    rw [hlen] at hb
    have hcap : capOpen N k := by
      unfold capOpen
      simp only [List.length_cons] at hN
      push_cast at hN
      omega
    have h10 : 10 ≤ (frameRecord p ++ (frame ps ++ tail)).length := by
      simp only [List.length_append]; omega
    have ih := loop_frame_append N tail htail fuel ps (k + 1) (loc + (frameRecord p).length)
      (by omega) (by push_cast at hb ⊢; omega)
      (by simp only [List.length_cons] at hN; push_cast at hN ⊢; omega)
    have hstep := loop_record N (fuel + ps.length) p (frame ps ++ tail) k loc hcap h10 h0
      (by push_cast at hb ⊢; omega)
    have e1 : fuel + (p :: ps).length = fuel + ps.length + 1 := by simp [Nat.add_assoc]
    have e2 : k + (p :: ps).length = k + 1 + ps.length := by simp; omega
    have e3 : loc + ((frameRecord p ++ frame ps).length : Int)
        = loc + (frameRecord p).length + (frame ps).length := by
      rw [List.length_append]; push_cast; omega
    simp only [frame, List.append_assoc]
    rw [e1, hstep, ih, e2, e3]
    cases readMessageLocationsLoop N fuel tail (k + 1 + ps.length)
        (loc + (frameRecord p).length + (frame ps).length) <;>
      simp [Emitted.push, Emitted.pushAll, frameLocs]


/-! ## Tiling lemmas -/

theorem Tiled_frameLocs : ∀ (records : List (List Nat)) (pre tail : List Nat),
    (pre ++ frame records).length < 9223372036854775808 →
    Tiled (pre ++ (frame records ++ tail)) pre.length (frameLocs pre.length records)
  | [], _, _, _ => by simp [frameLocs, Tiled]
  | p :: ps, pre, tail, hb => by
    have hlen : (pre ++ frame (p :: ps)).length
        = pre.length + ((EncodeVarint p.length).length + p.length) + (frame ps).length := by
      simp [frame, frameRecord]; omega
    rw [hlen] at hb
    have hle := EncodeVarint_length_le p.length
    have hdrop : (pre ++ (frame (p :: ps) ++ tail)).drop pre.length
        = EncodeVarint p.length ++ (p ++ (frame ps ++ tail)) := by
      rw [List.drop_left]; simp [frame, frameRecord, List.append_assoc]
    have htake : (EncodeVarint p.length ++ (p ++ (frame ps ++ tail))).take 10
        = EncodeVarint p.length
          ++ (p ++ (frame ps ++ tail)).take (10 - (EncodeVarint p.length).length) := by
      rw [List.take_append_eq_append_take, List.take_of_length_le hle]
    have hdec := DecodeVarint_EncodeVarint p.length
      ((p ++ (frame ps ++ tail)).take (10 - (EncodeVarint p.length).length)) (by omega)
    have ih := Tiled_frameLocs ps (pre ++ frameRecord p) tail
      (by simp [frameRecord]; omega)
    have hfile : pre ++ (frame (p :: ps) ++ tail)
        = (pre ++ frameRecord p) ++ (frame ps ++ tail) := by
      simp [frame, List.append_assoc]
    have hstart : ((pre ++ frameRecord p).length : Int)
        = (pre.length : Int) + (EncodeVarint p.length).length + p.length := by
      simp [frameRecord]; omega
    have hstart2 : ((pre ++ frameRecord p).length : Int)
        = (pre.length : Int) + (frameRecord p).length := by simp
    simp only [frameLocs, Tiled, Int.toNat_ofNat, hdrop, htake, hdec]
    refine ⟨Int.ofNat_nonneg _, EncodeVarint_length_pos _, trivial, trivial, ?_⟩
    rw [hfile, ← hstart, ← hstart2]
    exact ih

theorem Tiled_start_lt (file : List Nat) : ∀ (out : List messageLocation) (start : Int),
    Tiled file start out → ∀ l ∈ out, start < l.loc
  | [], _, _ => by simp
  | a :: out, start, h => by
    obtain ⟨h0, hpos, hloc, _, hrest⟩ := h
    intro l hl
    rcases List.mem_cons.mp hl with rfl | hl
    · omega
    · have := Tiled_start_lt file out _ hrest l hl
      omega

/-- Tiled locations do not overlap: every location ends before the payload of
a later one starts. -/
theorem Tiled_pairwise (file : List Nat) : ∀ (out : List messageLocation) (start : Int),
    Tiled file start out → out.Pairwise (fun a b => a.loc + (a.msgSize : Int) < b.loc)
  | [], _, _ => List.Pairwise.nil
  | a :: out, start, h => by
    obtain ⟨_, _, _, _, hrest⟩ := h
    exact List.Pairwise.cons (fun l hl => Tiled_start_lt file out _ hrest l hl)
      (Tiled_pairwise file out _ hrest)

theorem frameLocs_bound : ∀ (records : List (List Nat)) (start : Int),
    ∀ l ∈ frameLocs start records, start ≤ l.loc ∧ l.loc + (l.msgSize : Int) ≤ start + (frame records).length
  | [], _ => by simp [frameLocs]
  | p :: ps, start => by
    intro l hl
    simp only [frameLocs, List.mem_cons] at hl
    have hlen : ((frame (p :: ps)).length : Int)
        = (EncodeVarint p.length).length + p.length + (frame ps).length := by
      simp [frame, frameRecord]; omega
    rcases hl with rfl | hl
    · simp only [hlen]; omega
    · have := frameLocs_bound ps _ l hl
      have h2 : ((frameRecord p).length : Int) = (EncodeVarint p.length).length + p.length := by
        simp [frameRecord]
      rw [hlen]; omega

theorem frame_take_length_le (records : List (List Nat)) (m : Nat) :
    (frame (records.take m)).length ≤ (frame records).length := by
  conv_rhs => rw [frame_take_drop records m]
  simp

/-! ## Claims about the record framer -/

/-- C3: for every framed input (a concatenation of complete records, of a size
a Go `int` can hold) and every cap, `readMessageLocations` closes its channel
after sending locations that tile the file from byte 0: the first header starts
at byte 0, every `msgSize` is the value decoded from its header, every next
header starts at `loc + msgSize`, so the locations do not overlap and their
offsets strictly increase; they are the locations of the first `m` records and
lie within the file. -/
theorem C3_locations_tile_the_file (records : List (List Nat)) (maxMessages : Int)
    (hsize : (frame records).length < 9223372036854775808) :
    ∃ out : List messageLocation,
      (∀ fuel, records.length < fuel →
        readMessageLocations (frame records) maxMessages fuel = some ⟨out, Ending.closed⟩) ∧
      Tiled (frame records) 0 out ∧
      out.Pairwise (fun a b => a.loc + (a.msgSize : Int) < b.loc) ∧
      out.Pairwise (fun a b => a.loc < b.loc) ∧
      (∀ l ∈ out, 0 < l.loc ∧ l.loc + (l.msgSize : Int) ≤ (frame records).length) ∧
      ∃ m, m ≤ records.length ∧ out = frameLocs 0 (records.take m) := by
  obtain ⟨m, hm, hrun⟩ := loop_frame_short maxMessages [] (by simp) records 0 0 (le_refl _)
    (by simpa using hsize)
  have htiled : Tiled (frame records) 0 (frameLocs 0 (records.take m)) := by
    have h := Tiled_frameLocs (records.take m) [] (frame (records.drop m))
      (by
        have := frame_take_length_le records m
        simp only [List.nil_append]; omega)
    simp only [List.nil_append, ← frame_take_drop] at h
    simpa using h
  have hpair := Tiled_pairwise _ _ _ htiled
  refine ⟨frameLocs 0 (records.take m), ?_, htiled, hpair, ?_, ?_, m, hm, rfl⟩
  · intro fuel hf
    have := hrun fuel hf
    simpa [readMessageLocations] using this
  · refine hpair.imp ?_
    intro a b hab
    have : (0 : Int) ≤ a.msgSize := Int.ofNat_nonneg _
    omega
  · intro l hl
    have h1 := Tiled_start_lt _ _ _ htiled l hl
    have h2 := (frameLocs_bound (records.take m) 0 l hl).2
    have h3 := frame_take_length_le records m
    refine ⟨h1, ?_⟩
    omega

/-- C3, at the records of sizes 5, 0 and 12: the framer sends the locations
(1,5), (7,0), (8,12). -/
theorem C3_locations_tile_the_file_witness :
    (frame [List.replicate 5 0, [], List.replicate 12 0]).length < 9223372036854775808 ∧
    readMessageLocations (frame [List.replicate 5 0, [], List.replicate 12 0]) 0 4
      = some ⟨[⟨1, 5⟩, ⟨7, 0⟩, ⟨8, 12⟩], Ending.closed⟩ ∧
    ∃ out : List messageLocation,
      (∀ fuel, [List.replicate 5 0, [], List.replicate 12 0].length < fuel →
        readMessageLocations (frame [List.replicate 5 0, [], List.replicate 12 0]) 0 fuel
          = some ⟨out, Ending.closed⟩) ∧
      Tiled (frame [List.replicate 5 0, [], List.replicate 12 0]) 0 out ∧
      out.Pairwise (fun a b => a.loc + (a.msgSize : Int) < b.loc) ∧
      out.Pairwise (fun a b => a.loc < b.loc) ∧
      (∀ l ∈ out, 0 < l.loc ∧
        l.loc + (l.msgSize : Int) ≤ (frame [List.replicate 5 0, [], List.replicate 12 0]).length) ∧
      ∃ m, m ≤ [List.replicate 5 0, [], List.replicate 12 0].length ∧
        out = frameLocs 0 ([List.replicate 5 0, [], List.replicate 12 0].take m) :=
  ⟨by decide, by decide,
    C3_locations_tile_the_file [List.replicate 5 0, [], List.replicate 12 0] 0 (by decide)⟩

/-- More fuel does not change the result of a run that has ended. -/
theorem loop_fuel_mono (N : Int) : ∀ (fuel d : Nat) (reader : List Nat) (k : Nat) (loc : Int)
    (r : Emitted messageLocation), readMessageLocationsLoop N fuel reader k loc = some r →
    readMessageLocationsLoop N (fuel + d) reader k loc = some r
  | 0, _, _, _, _, _ => by simp [readMessageLocationsLoop]
  | fuel + 1, d, reader, k, loc, r => by
    have e : fuel + 1 + d = (fuel + d) + 1 := by omega
    rw [e, readMessageLocationsLoop, readMessageLocationsLoop]
    split
    · exact id
    · split
      · exact id
      · dsimp only
        split
        · exact id
        · intro h
          cases hrec : readMessageLocationsLoop N fuel _ (k + 1) _ with
          | none => rw [hrec] at h; simp [Emitted.push] at h
          | some r1 =>
            rw [hrec] at h
            rw [loop_fuel_mono N fuel d _ _ _ r1 hrec]
            exact h

/-- With the cap inside the records and ten or more bytes behind them, the
framer sends the locations of the first `maxMessages` records. -/
theorem loop_frame_capped (N : Int) (tail : List Nat) (htail : 10 ≤ tail.length)
    (records : List (List Nat)) (hN : 0 < N) (hle : N ≤ records.length)
    (hb : ((frame records).length : Int) < 9223372036854775808) (fuel : Nat)
    (hf : N.toNat < fuel) :
    readMessageLocationsLoop N fuel (frame records ++ tail) 0 0
      = some ⟨frameLocs 0 (records.take N.toNat), Ending.closed⟩ := by
  have hm : N.toNat ≤ records.length := by omega
  have hlen : (records.take N.toNat).length = N.toNat := List.length_take_of_le hm
  obtain ⟨f, rfl⟩ : ∃ f, fuel = (f + 1) + (records.take N.toNat).length :=
    ⟨fuel - 1 - N.toNat, by rw [hlen]; omega⟩
  have hfile : frame records ++ tail
      = frame (records.take N.toNat) ++ (frame (records.drop N.toNat) ++ tail) := by
    rw [← List.append_assoc, ← frame_take_drop]
  have hbt := frame_take_length_le records N.toNat
  rw [hfile, loop_frame_append N _ (by simp only [List.length_append]; omega) (f + 1)
    (records.take N.toNat) 0 0 (le_refl _) (by omega) (Or.inr (by rw [hlen]; omega))]
  rw [loop_cap N f _ _ _ (by unfold capOpen; rw [hlen]; omega)]
  simp [Emitted.pushAll]

/-- On the ten-byte header of the length 2^63 the framer without a cap never
ends: every iteration sends a location and discards nothing. -/
theorem loop_huge_header_never_ends : ∀ (fuel k : Nat) (loc : Int),
    readMessageLocationsLoop 0 fuel (List.replicate 9 128 ++ [1]) k loc = none
  | 0, _, _ => rfl
  | fuel + 1, k, loc => by
    have hpeek : Peek (List.replicate 9 128 ++ [1]) 10 = some (List.replicate 9 128 ++ [1]) := by
      decide
    have hd : DecodeVarint (List.replicate 9 128 ++ [1]) = (9223372036854775808, 10) := by
      decide
    have hdisc : Discard (List.replicate 9 128 ++ [1])
        (toInt64 (((10 : Nat) : Int) + toInt64 ((9223372036854775808 : Nat) : Int)))
        = List.replicate 9 128 ++ [1] := by decide
    rw [readMessageLocationsLoop, if_neg (by omega), hpeek]
    simp only [hd]
    rw [if_neg (by decide), hdisc, loop_huge_header_never_ends fuel (k + 1) _]
    rfl

/-- C4 (amended): on complete records followed by a truncated record with a
complete header, where the bytes of the complete records plus 10 plus the
announced length stay below 2^63, `readMessageLocations` closes its channel
after sending locations of complete records, in file order, and then at most
one location for the truncated record.  The announced length is not checked against the
file size: when at least ten bytes of the truncated record are present and the
cap is not reached, its location is sent behind those of all complete records,
and it reaches past the end of the file.  When fewer than ten bytes of it are
present nothing is sent for it.  Every location of a complete record lies
within the file.  Behind an incomplete header, or any other tail of fewer than
ten bytes, the channel is closed with nothing sent for the tail. -/
theorem C4_truncated_record (records : List (List Nat)) (n : Nat) (body : List Nat)
    (maxMessages : Int) (htrunc : body.length < n)
    (hsize : (frame records).length + 10 + n < 9223372036854775808) :
    ∃ out : List messageLocation,
      (∀ fuel, records.length + 1 < fuel →
        readMessageLocations (frame records ++ (EncodeVarint n ++ body)) maxMessages fuel
          = some ⟨out, Ending.closed⟩) ∧
      ((∃ m, m ≤ records.length ∧ out = frameLocs 0 (records.take m)) ∨
        out = frameLocs 0 records
          ++ [⟨((frame records).length : Int) + (EncodeVarint n).length, n⟩]) ∧
      ((EncodeVarint n ++ body).length < 10 →
        ∃ m, m ≤ records.length ∧ out = frameLocs 0 (records.take m)) ∧
      (10 ≤ (EncodeVarint n ++ body).length →
        (maxMessages ≤ 0 ∨ (records.length : Int) < maxMessages) →
        out = frameLocs 0 records
          ++ [⟨((frame records).length : Int) + (EncodeVarint n).length, n⟩]) ∧
      ((frame records ++ (EncodeVarint n ++ body)).length
        < ((frame records).length : Int) + (EncodeVarint n).length + (n : Int)) ∧
      (∀ l ∈ frameLocs 0 records,
        l.loc + (l.msgSize : Int) ≤ (frame records ++ (EncodeVarint n ++ body)).length) ∧
      (∀ hdr : List Nat, hdr.length < 10 →
        ∃ m, m ≤ records.length ∧ ∀ fuel, records.length < fuel →
          readMessageLocations (frame records ++ hdr) maxMessages fuel
            = some ⟨frameLocs 0 (records.take m), Ending.closed⟩) := by
  have hle := EncodeVarint_length_le n
  have hhdr : ∀ hdr : List Nat, hdr.length < 10 →
      ∃ m, m ≤ records.length ∧ ∀ fuel, records.length < fuel →
        readMessageLocations (frame records ++ hdr) maxMessages fuel
          = some ⟨frameLocs 0 (records.take m), Ending.closed⟩ := by
    intro hdr hlt
    exact loop_frame_short maxMessages hdr hlt records 0 0 (le_refl _) (by omega)
  have hbeyond : ((frame records ++ (EncodeVarint n ++ body)).length : Int)
      < ((frame records).length : Int) + (EncodeVarint n).length + (n : Int) := by
    simp only [List.length_append]; push_cast; omega
  have hin : ∀ l ∈ frameLocs 0 records,
      l.loc + (l.msgSize : Int) ≤ (frame records ++ (EncodeVarint n ++ body)).length := by
    intro l hl
    have := (frameLocs_bound records 0 l hl).2
    simp only [List.length_append]; push_cast; omega
  by_cases h10 : 10 ≤ (EncodeVarint n ++ body).length
  · by_cases hcap : maxMessages ≤ 0 ∨ (records.length : Int) < maxMessages
    · refine ⟨frameLocs 0 records
        ++ [⟨((frame records).length : Int) + (EncodeVarint n).length, n⟩], ?_,
        Or.inr rfl, fun h => absurd h10 (Nat.not_le.mpr h), fun _ _ => rfl, hbeyond, hin, hhdr⟩
      intro fuel hf
      obtain ⟨f, rfl⟩ : ∃ f, fuel = (f + 2) + records.length := ⟨fuel - 2 - records.length, by omega⟩
      unfold readMessageLocations
      rw [loop_frame_append maxMessages _ h10 (f + 2) records 0 0 (le_refl _) (by omega)
        (by rcases hcap with h | h
            · exact Or.inl h
            · exact Or.inr (by push_cast; omega))]
      rw [loop_header maxMessages (f + 1) n body _ _ (by unfold capOpen; push_cast; omega) h10
        (by omega) (by omega)]
      rw [List.drop_of_length_le (by omega), loop_short maxMessages f [] _ _ (by simp)]
      simp [Emitted.push, Emitted.pushAll]
    · have hN : 0 < maxMessages ∧ maxMessages ≤ records.length := by omega
      refine ⟨frameLocs 0 (records.take maxMessages.toNat), ?_,
        Or.inl ⟨maxMessages.toNat, by omega, rfl⟩, fun h => absurd h10 (Nat.not_le.mpr h),
        fun _ h => absurd h hcap, hbeyond, hin, hhdr⟩
      intro fuel hf
      exact loop_frame_capped maxMessages _ h10 records hN.1 hN.2 (by omega) fuel (by omega)
  · obtain ⟨m, hm, hrun⟩ := loop_frame_short maxMessages (EncodeVarint n ++ body)
      (Nat.not_le.mp h10) records 0 0 (le_refl _) (by omega)
    refine ⟨frameLocs 0 (records.take m), ?_, Or.inl ⟨m, hm, rfl⟩, fun _ => ⟨m, hm, rfl⟩,
      fun h => absurd h h10, hbeyond, hin, hhdr⟩
    intro fuel hf
    exact hrun fuel (by omega)

/-- C4, at one complete record of 12 bytes followed by a record that announces
100 bytes and holds 19. -/
theorem C4_truncated_record_witness :
    (List.replicate 19 0).length < 100 ∧
    ∃ out : List messageLocation,
      (∀ fuel, [List.replicate 12 0].length + 1 < fuel →
        readMessageLocations (frame [List.replicate 12 0]
            ++ (EncodeVarint 100 ++ List.replicate 19 0)) 0 fuel
          = some ⟨out, Ending.closed⟩) ∧
      ((∃ m, m ≤ [List.replicate 12 0].length ∧
          out = frameLocs 0 ([List.replicate 12 0].take m)) ∨
        out = frameLocs 0 [List.replicate 12 0]
          ++ [⟨((frame [List.replicate 12 0]).length : Int) + (EncodeVarint 100).length, 100⟩]) ∧
      ((EncodeVarint 100 ++ List.replicate 19 0).length < 10 →
        ∃ m, m ≤ [List.replicate 12 0].length ∧
          out = frameLocs 0 ([List.replicate 12 0].take m)) ∧
      (10 ≤ (EncodeVarint 100 ++ List.replicate 19 0).length →
        ((0 : Int) ≤ 0 ∨ ([List.replicate 12 0].length : Int) < 0) →
        out = frameLocs 0 [List.replicate 12 0]
          ++ [⟨((frame [List.replicate 12 0]).length : Int) + (EncodeVarint 100).length, 100⟩]) ∧
      ((frame [List.replicate 12 0] ++ (EncodeVarint 100 ++ List.replicate 19 0)).length
        < ((frame [List.replicate 12 0]).length : Int) + (EncodeVarint 100).length
          + (100 : Int)) ∧
      (∀ l ∈ frameLocs 0 [List.replicate 12 0],
        l.loc + (l.msgSize : Int)
          ≤ (frame [List.replicate 12 0] ++ (EncodeVarint 100 ++ List.replicate 19 0)).length) ∧
      (∀ hdr : List Nat, hdr.length < 10 →
        ∃ m, m ≤ [List.replicate 12 0].length ∧ ∀ fuel, [List.replicate 12 0].length < fuel →
          readMessageLocations (frame [List.replicate 12 0] ++ hdr) 0 fuel
            = some ⟨frameLocs 0 ([List.replicate 12 0].take m), Ending.closed⟩) :=
  ⟨by decide,
    C4_truncated_record [List.replicate 12 0] 100 (List.replicate 19 0) 0 (by decide)
      (by decide)⟩

/-- C4 (counterexample): a file that holds only a record announcing 100 bytes
with 19 bytes of payload present gets the location (1, 100), which ends at byte
101 of a file of 20 bytes.  A file that holds only the ten-byte header of the
length 2^63 gets a location for that header again and again, up to the cap:
the length does not fit Go's `int`, `Discard` is called with a negative count
and skips nothing. -/
theorem C4_truncated_record_counterexample :
    readMessageLocations (100 :: List.replicate 19 0) 0 2
      = some ⟨[⟨1, 100⟩], Ending.closed⟩ ∧
    ¬ ((1 : Int) + 100 ≤ (100 :: List.replicate 19 0).length) ∧
    DecodeVarint (List.replicate 9 128 ++ [1]) = (9223372036854775808, 10) ∧
    readMessageLocations (List.replicate 9 128 ++ [1]) 3 4
      = some ⟨[⟨10, 9223372036854775808⟩, ⟨-9223372036854775788, 9223372036854775808⟩,
          ⟨30, 9223372036854775808⟩], Ending.closed⟩ := by
  decide

/-- C5 (amended): when ten bytes are available at a position the framer
reaches and `DecodeVarint` reports 0 bytes consumed for them, the loop calls
`log.Fatal`: the program is aborted behind the locations already sent, the
channel is not closed cleanly.  After complete records with the cap out of
reach the run sends the location of every record and is then aborted. -/
theorem C5_undecodable_prefix_is_fatal (records : List (List Nat)) (bad : List Nat)
    (maxMessages : Int) (h10 : 10 ≤ bad.length) (hdec : (DecodeVarint (bad.take 10)).2 = 0)
    (hsize : (frame records).length < 9223372036854775808) :
    (∀ (fuel k : Nat) (location : Int), capOpen maxMessages k →
      readMessageLocationsLoop maxMessages (fuel + 1) bad k location
        = some ⟨[], Ending.fatal⟩) ∧
    ((maxMessages ≤ 0 ∨ (records.length : Int) < maxMessages) →
      ∀ fuel, records.length < fuel →
        readMessageLocations (frame records ++ bad) maxMessages fuel
          = some ⟨frameLocs 0 records, Ending.fatal⟩) := by
  have hstep : ∀ (fuel k : Nat) (location : Int), capOpen maxMessages k →
      readMessageLocationsLoop maxMessages (fuel + 1) bad k location
        = some ⟨[], Ending.fatal⟩ := by
    intro fuel k location hcap
    unfold capOpen at hcap
    rw [readMessageLocationsLoop, if_neg hcap]
    simp [Peek, h10, hdec]
  refine ⟨hstep, ?_⟩
  intro hcap fuel hf
  obtain ⟨f, rfl⟩ : ∃ f, fuel = (f + 1) + records.length := ⟨fuel - 1 - records.length, by omega⟩
  unfold readMessageLocations
  rw [loop_frame_append maxMessages bad h10 (f + 1) records 0 0 (le_refl _) (by omega)
    (by rcases hcap with h | h
        · exact Or.inl h
        · exact Or.inr (by push_cast; omega))]
  rw [hstep f _ _ (by unfold capOpen; push_cast; omega)]
  simp [Emitted.pushAll]

/-- C5, at one record of 12 bytes followed by ten bytes that all carry the
continuation bit. -/
theorem C5_undecodable_prefix_is_fatal_witness :
    10 ≤ (List.replicate 10 128).length ∧
    (DecodeVarint ((List.replicate 10 128).take 10)).2 = 0 ∧
    ((∀ (fuel k : Nat) (location : Int), capOpen 0 k →
      readMessageLocationsLoop 0 (fuel + 1) (List.replicate 10 128) k location
        = some ⟨[], Ending.fatal⟩) ∧
    (((0 : Int) ≤ 0 ∨ ([List.replicate 12 0].length : Int) < 0) →
      ∀ fuel, [List.replicate 12 0].length < fuel →
        readMessageLocations (frame [List.replicate 12 0] ++ List.replicate 10 128) 0 fuel
          = some ⟨frameLocs 0 [List.replicate 12 0], Ending.fatal⟩)) :=
  ⟨by decide, by decide,
    C5_undecodable_prefix_is_fatal [List.replicate 12 0] (List.replicate 10 128) 0 (by decide)
      (by decide) (by decide)⟩

/-- C5 (counterexample): on a file of ten bytes that all carry the continuation
bit the decoder consumes 0 bytes and the framer ends in `log.Fatal`, not in a
clean close. -/
theorem C5_undecodable_prefix_counterexample :
    (DecodeVarint ((List.replicate 10 128).take 10)).2 = 0 ∧
    readMessageLocations (List.replicate 10 128) 0 1 = some ⟨[], Ending.fatal⟩ ∧
    readMessageLocations (List.replicate 10 128) 0 1 ≠ some ⟨[], Ending.closed⟩ := by
  decide

/-! ## Claims about the pipeline of `main` -/

/-- C1 (failing input): the file that holds the single complete record
`[5][1 2 3 4 5]` has six bytes, so `Peek(10)` fails at byte 0: without a cap
the framer sends no location and the pipeline emits no message, where one
record is complete. -/
theorem C1_short_file_emits_nothing :
    frame [[1, 2, 3, 4, 5]] = [5, 1, 2, 3, 4, 5] ∧
    (∀ fuel, readMessageLocations (frame [[1, 2, 3, 4, 5]]) 0 (fuel + 1)
      = some ⟨[], Ending.closed⟩) ∧
    (∀ fuel, mainMatched (frame [[1, 2, 3, 4, 5]]) 0 none "pkg.A" exampleRegistry (fuel + 1)
      = some ⟨[], Ending.closed⟩) := by
  have h : ∀ fuel, readMessageLocations (frame [[1, 2, 3, 4, 5]]) 0 (fuel + 1)
      = some ⟨[], Ending.closed⟩ := fun fuel => loop_short 0 fuel _ 0 0 (by decide)
  refine ⟨by decide, h, ?_⟩
  intro fuel
  simp [mainMatched, h fuel, readMessages, matchLoop, Ending.andThen]

/-- C2 (failing input): two records of 12 bytes, the second of which alone has
the field `kind` equal to `hit`.  With the cap 1 and the predicate `kind=hit`
the framer stops behind the first record, so the pipeline emits no message;
without the cap it emits the one matching record. -/
theorem C2_cap_counts_records_not_matches :
    (∀ fuel, readMessageLocations (frame [List.replicate 12 0, 1 :: List.replicate 11 0]) 1
      (fuel + 2) = some ⟨[⟨1, 12⟩], Ending.closed⟩) ∧
    (∀ fuel, mainMatched (frame [List.replicate 12 0, 1 :: List.replicate 11 0]) 1
      (some ⟨"kind", fun s => s == "hit"⟩) "pkg.A" exampleRegistry (fuel + 2)
      = some ⟨[], Ending.closed⟩) ∧
    mainMatched (frame [List.replicate 12 0, 1 :: List.replicate 11 0]) 0
      (some ⟨"kind", fun s => s == "hit"⟩) "pkg.A" exampleRegistry 3
      = some ⟨[("pkg.A", 1 :: List.replicate 11 0)], Ending.closed⟩ := by
  have h : ∀ fuel, readMessageLocations (frame [List.replicate 12 0, 1 :: List.replicate 11 0]) 1
      (fuel + 2) = some ⟨[⟨1, 12⟩], Ending.closed⟩ := by
    intro fuel
    have h2 : readMessageLocationsLoop 1 2 (frame [List.replicate 12 0, 1 :: List.replicate 11 0])
        0 0 = some ⟨[⟨1, 12⟩], Ending.closed⟩ := by decide
    have := loop_fuel_mono 1 2 fuel _ 0 0 _ h2
    rw [readMessageLocations, Nat.add_comm fuel 2]
    exact this
  refine ⟨h, ?_, by decide⟩
  intro fuel
  have hm : matchLoop exampleRegistry 1 (some ⟨"kind", fun s => s == "hit"⟩)
      (readMessages (frame [List.replicate 12 0, 1 :: List.replicate 11 0]) "pkg.A"
        exampleRegistry 30 [⟨1, 12⟩]).out 0 = ⟨[], Ending.closed⟩ := by decide
  have hr : (readMessages (frame [List.replicate 12 0, 1 :: List.replicate 11 0]) "pkg.A"
        exampleRegistry 30 [⟨1, 12⟩]).ending = Ending.closed := by decide
  simp only [mainMatched, h fuel, hm, hr, Ending.andThen]

/-! ## Claims about the decoder pool -/

theorem readMessages_all_read {Msg : Type} (file : List Nat) (msgname : String)
    (msgreg : MessageRegistry Msg) (w : Nat) : ∀ (locs : List messageLocation),
    (∀ l ∈ locs, l.msgSize ≤ 262144 ∧ ReadAt file l.msgSize l.loc ≠ none) →
    ((readMessages file msgname msgreg (w + 1) locs).ending = Ending.closed ∧
        (readMessages file msgname msgreg (w + 1) locs).out.length = locs.length) ∨
      ((readMessages file msgname msgreg (w + 1) locs).ending = Ending.fatal ∧
        (readMessages file msgname msgreg (w + 1) locs).out.length < locs.length)
  | [], _ => by simp [readMessages]
  | l :: locs, h => by
    have hl := h l (List.mem_cons_self _ _)
    have ih := readMessages_all_read file msgname msgreg w locs
      (fun x hx => h x (List.mem_cons_of_mem _ hx))
    obtain ⟨buf, hbuf⟩ := Option.ne_none_iff_exists'.mp hl.2
    have hsz : ¬ l.msgSize > 256 * 1024 := by omega
    cases hres : msgreg.Resolve msgname with
    | none => simp [readMessages, readMessagesStep, hsz, hbuf, hres]
    | some msg =>
      cases hun : msgreg.Unmarshal buf msg with
      | none => simp [readMessages, readMessagesStep, hsz, hbuf, hres, hun]
      | some m =>
        have hstep : readMessagesStep file msgname msgreg l = WorkerStep.send m := by
          simp [readMessagesStep, hsz, hbuf, hres, hun]
        simp only [readMessages, hstep, List.length_cons]
        rcases ih with ⟨h1, h2⟩ | ⟨h1, h2⟩
        · exact Or.inl ⟨h1, by omega⟩
        · exact Or.inr ⟨h1, by omega⟩

/-- C9 (amended): a worker of `readMessages` that consumes a location of at
most 256*1024 bytes sends exactly one decoded message when the positioned read,
`Resolve` and `Unmarshal` succeed, aborts the run with `log.Fatal` when
`Resolve` or `Unmarshal` fails, and, when the positioned read fails, returns
without sending anything and without an error.  On locations that are all
readable the pool either sends one message per location and closes, or the run
is aborted by `log.Fatal`. -/
theorem C9_worker_outcomes {Msg : Type} (file : List Nat) (msgname : String)
    (msgreg : MessageRegistry Msg) (locs : List messageLocation)
    (hsize : ∀ l ∈ locs, l.msgSize ≤ 262144) :
    (∀ l ∈ locs,
      (ReadAt file l.msgSize l.loc = none →
        readMessagesStep file msgname msgreg l = WorkerStep.stop) ∧
      (∀ buf, ReadAt file l.msgSize l.loc = some buf →
        (∃ msg m, msgreg.Resolve msgname = some msg ∧ msgreg.Unmarshal buf msg = some m ∧
          readMessagesStep file msgname msgreg l = WorkerStep.send m) ∨
        ((msgreg.Resolve msgname = none ∨
            ∃ msg, msgreg.Resolve msgname = some msg ∧ msgreg.Unmarshal buf msg = none) ∧
          readMessagesStep file msgname msgreg l = WorkerStep.fatal))) ∧
    ((∀ l ∈ locs, ReadAt file l.msgSize l.loc ≠ none) → ∀ w,
      ((readMessages file msgname msgreg (w + 1) locs).ending = Ending.closed ∧
          (readMessages file msgname msgreg (w + 1) locs).out.length = locs.length) ∨
        ((readMessages file msgname msgreg (w + 1) locs).ending = Ending.fatal ∧
          (readMessages file msgname msgreg (w + 1) locs).out.length < locs.length)) := by
  refine ⟨?_, ?_⟩
  · intro l hl
    have hsz : ¬ l.msgSize > 256 * 1024 := by have := hsize l hl; omega
    refine ⟨?_, ?_⟩
    · intro hnone
      simp [readMessagesStep, hsz, hnone]
    · intro buf hbuf
      cases hres : msgreg.Resolve msgname with
      | none => simp [readMessagesStep, hsz, hbuf, hres]
      | some msg =>
        cases hun : msgreg.Unmarshal buf msg with
        | none => simp [readMessagesStep, hsz, hbuf, hres, hun]
        | some m => simp [readMessagesStep, hsz, hbuf, hres, hun]
  · intro hread w
    exact readMessages_all_read file msgname msgreg w locs
      (fun l hl => ⟨hsize l hl, hread l hl⟩)

/-- C9, at the file of one record of 12 bytes and its location (1, 12). -/
theorem C9_worker_outcomes_witness :
    (∀ l ∈ [(⟨1, 12⟩ : messageLocation)], l.msgSize ≤ 262144) ∧
    (∀ l ∈ [(⟨1, 12⟩ : messageLocation)],
      (ReadAt (frame [List.replicate 12 0]) l.msgSize l.loc = none →
        readMessagesStep (frame [List.replicate 12 0]) "pkg.A" exampleRegistry l
          = WorkerStep.stop) ∧
      (∀ buf, ReadAt (frame [List.replicate 12 0]) l.msgSize l.loc = some buf →
        (∃ msg m, exampleRegistry.Resolve "pkg.A" = some msg ∧
          exampleRegistry.Unmarshal buf msg = some m ∧
          readMessagesStep (frame [List.replicate 12 0]) "pkg.A" exampleRegistry l
            = WorkerStep.send m) ∨
        ((exampleRegistry.Resolve "pkg.A" = none ∨
            ∃ msg, exampleRegistry.Resolve "pkg.A" = some msg ∧
              exampleRegistry.Unmarshal buf msg = none) ∧
          readMessagesStep (frame [List.replicate 12 0]) "pkg.A" exampleRegistry l
            = WorkerStep.fatal))) ∧
    ((∀ l ∈ [(⟨1, 12⟩ : messageLocation)],
        ReadAt (frame [List.replicate 12 0]) l.msgSize l.loc ≠ none) → ∀ w,
      ((readMessages (frame [List.replicate 12 0]) "pkg.A" exampleRegistry (w + 1)
            [⟨1, 12⟩]).ending = Ending.closed ∧
          (readMessages (frame [List.replicate 12 0]) "pkg.A" exampleRegistry (w + 1)
            [⟨1, 12⟩]).out.length = [(⟨1, 12⟩ : messageLocation)].length) ∨
        ((readMessages (frame [List.replicate 12 0]) "pkg.A" exampleRegistry (w + 1)
            [⟨1, 12⟩]).ending = Ending.fatal ∧
          (readMessages (frame [List.replicate 12 0]) "pkg.A" exampleRegistry (w + 1)
            [⟨1, 12⟩]).out.length < [(⟨1, 12⟩ : messageLocation)].length)) :=
  ⟨by decide,
    C9_worker_outcomes (frame [List.replicate 12 0]) "pkg.A" exampleRegistry [⟨1, 12⟩]
      (by decide)⟩

/-- C9 (counterexample): the framer sends the location (1, 100) for a file of
20 bytes; the worker that takes it fails in the positioned read and returns,
so the pool closes its output with no message sent and no fatal error. -/
theorem C9_failed_read_is_dropped_counterexample :
    readMessageLocations (100 :: List.replicate 19 0) 0 2
      = some ⟨[⟨1, 100⟩], Ending.closed⟩ ∧
    readMessagesStep (100 :: List.replicate 19 0) "pkg.A" exampleRegistry ⟨1, 100⟩
      = WorkerStep.stop ∧
    readMessages (100 :: List.replicate 19 0) "pkg.A" exampleRegistry 30 [⟨1, 100⟩]
      = ⟨[], Ending.closed⟩ := by
  decide

theorem oversized_record (p : List Nat) (hp : p.length = 262145) :
    (∀ fuel, readMessageLocations (frame [p]) 0 (fuel + 2)
      = some ⟨[⟨3, 262145⟩], Ending.closed⟩) ∧
    ReadAt (frame [p]) 262145 3 = some p := by
  have henc' : EncodeVarint 262145 = [129, 128, 16] := by decide
  have henc : EncodeVarint p.length = [129, 128, 16] := by rw [hp]; exact henc'
  have hfile : frame [p] = frameRecord p ++ [] := by simp [frame]
  have hrec : frameRecord p = [129, 128, 16] ++ p := by
    simp [frameRecord, henc]
  refine ⟨?_, ?_⟩
  · intro fuel
    have hstep := loop_record 0 (fuel + 1) p [] 0 0
      (by unfold capOpen; omega) (by simp [frameRecord_length, hp]) (le_refl _)
      (by simp [frameRecord_length, henc', hp])
    rw [readMessageLocations, hfile, hstep, loop_short 0 fuel [] _ _ (by simp)]
    simp [Emitted.push, henc', hp]
  · rw [hfile, hrec]
    have h3 : ([129, 128, 16] ++ p ++ []).drop 3 = p := by simp
    have hlen : ([129, 128, 16] ++ p ++ ([] : List Nat)).length = 262148 := by simp [hp]
    have htk : p.take 262145 = p := List.take_of_length_le (by omega)
    unfold ReadAt
    rw [if_neg (by decide), if_neg (by decide), hlen, if_pos (by decide)]
    rw [show (3 : Int).toNat = 3 from rfl, h3, htk]

/-- C10 (failing input): a complete record of 262145 bytes.  The framer sends
its location (3, 262145), the record can be read in full at that offset, and
the worker that takes it evaluates `msgBuf[:262145]` on a buffer of 262144
bytes: the run ends in a run-time panic. -/
theorem C10_oversized_record_panics :
    (∀ fuel, readMessageLocations (frame [List.replicate 262145 0]) 0 (fuel + 2)
      = some ⟨[⟨3, 262145⟩], Ending.closed⟩) ∧
    ReadAt (frame [List.replicate 262145 0]) 262145 3 = some (List.replicate 262145 0) ∧
    (∀ file : List Nat, readMessagesStep file "pkg.A" exampleRegistry ⟨3, 262145⟩
      = WorkerStep.panic) ∧
    (∀ file : List Nat, readMessages file "pkg.A" exampleRegistry 30 [⟨3, 262145⟩]
      = ⟨[], Ending.panic⟩) := by
  have h := oversized_record (List.replicate 262145 0) (List.length_replicate _ _)
  refine ⟨h.1, h.2, ?_, ?_⟩
  · intro file
    simp [readMessagesStep]
  · intro file
    simp [readMessages, readMessagesStep]

/-! ## Claims about type inference -/

theorem matchTypes_eq_filter {Msg : Type} (msgreg : MessageRegistry Msg) (msgBuf : List Nat)
    (msgSize : Nat) : ∀ (types : List String), (∀ t ∈ types, msgreg.Resolve t ≠ none) →
    matchTypes msgreg msgBuf msgSize types
      = Run.ok (types.filter (fun t =>
          match msgreg.Resolve t with
          | some msg => structurallyCompatible msgreg msgBuf msgSize msg
          | none => false))
  | [], _ => by simp [matchTypes]
  | url :: types, h => by
    have ih := matchTypes_eq_filter msgreg msgBuf msgSize types
      (fun t ht => h t (List.mem_cons_of_mem _ ht))
    obtain ⟨msg, hmsg⟩ := Option.ne_none_iff_exists'.mp (h url (List.mem_cons_self _ _))
    simp only [matchTypes, hmsg, ih, List.filter_cons]
    by_cases hc : structurallyCompatible msgreg msgBuf msgSize msg <;> simp [hc]

theorem matchMessageType_eq_filter {Msg : Type} (file : List Nat) (msgreg : MessageRegistry Msg) :
    ∀ (samples : List messageLocation) (types : List String),
    (∀ l ∈ samples, ReadAt file l.msgSize l.loc ≠ none) →
    (∀ t ∈ types, msgreg.Resolve t ≠ none) →
    matchMessageType file msgreg samples types
      = Run.ok (types.filter (fun t => samples.all (fun l => compatibleAt file msgreg l t)))
  | [], types, _, _ => by simp [matchMessageType]
  | l :: samples, types, hread, hres => by
    obtain ⟨buf, hbuf⟩ := Option.ne_none_iff_exists'.mp (hread l (List.mem_cons_self _ _))
    have h1 := matchTypes_eq_filter msgreg buf l.msgSize types hres
    have ih := matchMessageType_eq_filter file msgreg samples
      (types.filter (fun t =>
          match msgreg.Resolve t with
          | some msg => structurallyCompatible msgreg buf l.msgSize msg
          | none => false))
      (fun x hx => hread x (List.mem_cons_of_mem _ hx))
      (fun t ht => hres t (List.mem_of_mem_filter ht))
    simp only [matchMessageType, hbuf, h1, ih, List.filter_filter]
    congr 1
    apply List.filter_congr
    intro t ht
    obtain ⟨msg, hmsg⟩ := Option.ne_none_iff_exists'.mp (hres t ht)
    simp only [List.all_cons, compatibleAt, hbuf, hmsg]
    exact Bool.and_comm _ _

theorem all_perm {α : Type} (f : α → Bool) (l1 l2 : List α) (h : l1.Perm l2) :
    l1.all f = l2.all f := by
  rw [Bool.eq_iff_iff, List.all_eq_true, List.all_eq_true]
  exact ⟨fun h1 x hx => h1 x (h.mem_iff.mpr hx), fun h1 x hx => h1 x (h.mem_iff.mp hx)⟩


/-! ## The sample framer under the rewinds of `matchMessageType` -/

theorem sharedLoop_closed (file : List Nat) (N : Int) (rewinds : Option (Nat → Nat))
    (fuel : Nat) (r r1 : SharedReader) (k : Nat) (loc : Int)
    (hpeek : SharedReader.Peek file r = (r1, none)) :
    readMessageLocationsSharedLoop file N rewinds (fuel + 1) r k loc
      = some ⟨[], Ending.closed⟩ := by
  rw [readMessageLocationsSharedLoop]
  split
  · rfl
  · rw [hpeek]

theorem sharedLoop_step (file : List Nat) (N : Int) (rewinds : Option (Nat → Nat))
    (fuel : Nat) (r r1 : SharedReader) (k : Nat) (loc : Int) (buf : List Nat)
    (hcap : capOpen N k) (hpeek : SharedReader.Peek file r = (r1, some buf))
    (hnz : (DecodeVarint buf).2 ≠ 0) :
    readMessageLocationsSharedLoop file N rewinds (fuel + 1) r k loc
      = Emitted.push ⟨toInt64 (loc + (DecodeVarint buf).2), (DecodeVarint buf).1⟩
          (readMessageLocationsSharedLoop file N rewinds fuel
            (SharedReader.Discard file (SharedReader.handOver rewinds (k + 1) r1)
              (toInt64 ((DecodeVarint buf).2 + toInt64 (DecodeVarint buf).1)))
            (k + 1)
            (toInt64 (toInt64 (loc + (DecodeVarint buf).2) + toInt64 (DecodeVarint buf).1))) := by
  unfold capOpen at hcap
  rw [readMessageLocationsSharedLoop, if_neg hcap, hpeek]
  simp only [hnz, if_false]

/-- A framer with a cap ends within `maxMessages + 1` iterations. -/
theorem sharedLoop_total (file : List Nat) (N : Int) (rewinds : Option (Nat → Nat)) (hN : 0 < N) :
    ∀ (fuel : Nat) (r : SharedReader) (k : Nat) (loc : Int), N.toNat ≤ fuel + k →
      ∃ res, readMessageLocationsSharedLoop file N rewinds (fuel + 1) r k loc = some res
  | fuel, r, k, loc, h => by
    by_cases hcap : capOpen N k
    · cases hp : SharedReader.Peek file r with
      | mk r1 res =>
        cases res with
        | none => exact ⟨_, sharedLoop_closed file N rewinds fuel r r1 k loc hp⟩
        | some buf =>
          by_cases hnz : (DecodeVarint buf).2 = 0
          · refine ⟨⟨[], Ending.fatal⟩, ?_⟩
            unfold capOpen at hcap
            rw [readMessageLocationsSharedLoop, if_neg hcap, hp]
            simp only [hnz, if_true]
          · rw [sharedLoop_step file N rewinds fuel r r1 k loc buf hcap hp hnz]
            cases fuel with
            | zero =>
              exfalso
              unfold capOpen at hcap
              omega
            | succ f =>
              obtain ⟨res, hres⟩ := sharedLoop_total file N rewinds hN f _ (k + 1) _ (by omega)
              rw [hres]
              exact ⟨_, rfl⟩
    · refine ⟨⟨[], Ending.closed⟩, ?_⟩
      unfold capOpen at hcap
      rw [readMessageLocationsSharedLoop, if_pos (not_not.mp hcap)]

theorem matchMessageType_append {Msg : Type} (file : List Nat) (msgreg : MessageRegistry Msg) :
    ∀ (a b : List messageLocation) (types : List String),
    matchMessageType file msgreg (a ++ b) types
      = match matchMessageType file msgreg a types with
        | Run.ok kept => matchMessageType file msgreg b kept
        | Run.fatal => Run.fatal
        | Run.panic => Run.panic
  | [], b, types => by simp [matchMessageType]
  | l :: a, b, types => by
    simp only [List.cons_append, matchMessageType]
    cases h1 : ReadAt file l.msgSize l.loc with
    | none => rfl
    | some buf =>
      dsimp only
      cases h2 : matchTypes msgreg buf l.msgSize types with
      | ok kept => exact matchMessageType_append file msgreg a b kept
      | fatal => rfl
      | panic => rfl

/-! ### Without rewinds the shared reader is the plain reader -/

theorem take_append_drop_length (c : Nat) (l : List Nat) :
    l.take c ++ l.drop (l.take c).length = l := by
  by_cases h : c ≤ l.length
  · rw [List.length_take, Nat.min_eq_left h, List.take_append_drop]
  · rw [List.take_of_length_le (by omega), List.drop_length, List.append_nil]

theorem fill_undisturbed (file : List Nat) (r : SharedReader) (reader : List Nat)
    (hp : r.pending = none) (hb : r.buffered ++ file.drop r.offset = reader)
    (hcap : r.buffered.length < 64 * 1024) :
    (SharedReader.fill file r).1.pending = none ∧
    (SharedReader.fill file r).1.buffered ++ file.drop (SharedReader.fill file r).1.offset
      = reader ∧
    ((SharedReader.fill file r).2 = true →
      (SharedReader.fill file r).1.buffered = r.buffered ∧ reader = r.buffered) ∧
    ((SharedReader.fill file r).2 = false →
      r.buffered.length < (SharedReader.fill file r).1.buffered.length ∧
      ((SharedReader.fill file r).1.buffered.length < 64 * 1024 →
        reader = (SharedReader.fill file r).1.buffered)) := by
  obtain ⟨b, off, pending⟩ := r
  simp only at hp hb hcap
  subst hp
  have hsplit : (file.drop off).take (64 * 1024 - b.length)
      ++ file.drop (off + ((file.drop off).take (64 * 1024 - b.length)).length)
      = file.drop off := by
    rw [← List.drop_drop]
    exact take_append_drop_length _ _
  simp only [SharedReader.fill]
  refine ⟨trivial, ?_, ?_, ?_⟩
  · rw [List.append_assoc, hsplit]; exact hb
  · intro h
    have hnil : (file.drop off).take (64 * 1024 - b.length) = [] := by
      simpa using h
    have hrest : file.drop off = [] := by
      rcases List.take_eq_nil_iff.mp hnil with h0 | h0
      · omega
      · exact h0
    rw [hnil, List.append_nil]
    refine ⟨rfl, ?_⟩
    rw [← hb, hrest, List.append_nil]
  · intro h
    have hne : (file.drop off).take (64 * 1024 - b.length) ≠ [] := by
      intro h0; rw [h0] at h; simp at h
    have hpos : 0 < ((file.drop off).take (64 * 1024 - b.length)).length :=
      List.length_pos.mpr hne
    refine ⟨by simp only [List.length_append]; omega, ?_⟩
    intro hlt
    simp only [List.length_append, List.length_take] at hlt
    have hall : (file.drop off).take (64 * 1024 - b.length) = file.drop off :=
      List.take_of_length_le (by omega)
    rw [hall]; exact hb.symm

theorem peek_undisturbed (file : List Nat) (r : SharedReader) (reader : List Nat)
    (hp : r.pending = none) (hb : r.buffered ++ file.drop r.offset = reader) :
    (SharedReader.Peek file r).1.pending = none ∧
    (SharedReader.Peek file r).1.buffered ++ file.drop (SharedReader.Peek file r).1.offset
      = reader ∧
    (SharedReader.Peek file r).2 = Peek reader 10 := by
  have hlong : ∀ (x : SharedReader), x.buffered ++ file.drop x.offset = reader →
      10 ≤ x.buffered.length → some (x.buffered.take 10) = Peek reader 10 := by
    intro x hx h10
    have hlen : 10 ≤ reader.length := by rw [← hx, List.length_append]; omega
    rw [Peek, if_pos hlen, ← hx, List.take_append_of_le_length h10]
  have hshort : ∀ (x : List Nat), reader = x → ¬ 10 ≤ x.length → none = Peek reader 10 := by
    intro x hx h10
    rw [Peek, if_neg (by rw [hx]; exact h10)]
  unfold SharedReader.Peek
  rw [show (11 : Nat) = 9 + 1 + 1 from rfl]
  simp only [SharedReader.peekLoop]
  by_cases h10 : 10 ≤ r.buffered.length
  · rw [if_pos h10]
    exact ⟨hp, hb, hlong r hb h10⟩
  · rw [if_neg h10]
    have f := fill_undisturbed file r reader hp hb (by omega)
    cases hfill : SharedReader.fill file r with
    | mk r1 eof =>
      rw [hfill] at f
      simp only at f
      cases eof with
      | true =>
        simp only
        exact ⟨f.1, f.2.1, hshort r.buffered (f.2.2.1 rfl).2 h10⟩
      | false =>
        simp only
        by_cases h10b : 10 ≤ r1.buffered.length
        · rw [if_pos h10b]
          exact ⟨f.1, f.2.1, hlong r1 f.2.1 h10b⟩
        · rw [if_neg h10b]
          have hall : reader = r1.buffered := (f.2.2.2 rfl).2 (by omega)
          have f2 := fill_undisturbed file r1 reader f.1 f.2.1 (by omega)
          cases hfill2 : SharedReader.fill file r1 with
          | mk r2 eof2 =>
            rw [hfill2] at f2
            simp only at f2
            cases eof2 with
            | true =>
              simp only
              exact ⟨f2.1, f2.2.1, hshort r1.buffered hall h10b⟩
            | false =>
              exfalso
              have hgrow := (f2.2.2.2 rfl).1
              have hlen : r2.buffered.length ≤ reader.length := by
                rw [← f2.2.1, List.length_append]; omega
              rw [hall] at hlen
              omega

theorem discardLoop_undisturbed (file : List Nat) :
    ∀ (rounds : Nat) (r : SharedReader) (remain : Nat) (reader : List Nat),
    r.pending = none → r.buffered ++ file.drop r.offset = reader →
    1 ≤ remain → remain ≤ rounds →
    (SharedReader.discardLoop file rounds r remain).pending = none ∧
    (SharedReader.discardLoop file rounds r remain).buffered
        ++ file.drop (SharedReader.discardLoop file rounds r remain).offset
      = reader.drop remain
  | 0, _, _, _, _, _, h1, h2 => by omega
  | rounds + 1, r, remain, reader, hp, hb, h1, h2 => by
    -- the reader after the optional fill
    have hstep : ∃ (r1 : SharedReader) (eof : Bool),
        (if r.buffered.length = 0 then SharedReader.fill file r else (r, false)) = (r1, eof) ∧
        r1.pending = none ∧ r1.buffered ++ file.drop r1.offset = reader ∧
        (eof = true → r1.buffered = [] ∧ reader = []) ∧
        (eof = false → 0 < r1.buffered.length) := by
      by_cases h0 : r.buffered.length = 0
      · have f := fill_undisturbed file r reader hp hb (by omega)
        refine ⟨(SharedReader.fill file r).1, (SharedReader.fill file r).2, by rw [if_pos h0],
          f.1, f.2.1, ?_, ?_⟩
        · intro he
          have hnil : r.buffered = [] := List.length_eq_zero.mp h0
          have := f.2.2.1 he
          rw [hnil] at this
          exact this
        · intro he
          have := (f.2.2.2 he).1
          omega
      · exact ⟨r, false, by rw [if_neg h0], hp, hb, fun h => (by cases h), fun _ => (by omega)⟩
    obtain ⟨r1, eof, hif, hp1, hb1, heof, hne⟩ := hstep
    simp only [SharedReader.discardLoop, hif]
    have hdrop : ∀ n, n ≤ r1.buffered.length →
        r1.buffered.drop n ++ file.drop r1.offset = reader.drop n := by
      intro n hn
      rw [← hb1, List.drop_append_of_le_length hn]
    by_cases hdone : remain - min r1.buffered.length remain = 0
    · rw [if_pos hdone]
      have hmin : min r1.buffered.length remain = remain := by omega
      rw [hmin]
      exact ⟨hp1, hdrop remain (by omega)⟩
    · rw [if_neg hdone]
      have hmin : min r1.buffered.length remain = r1.buffered.length := by omega
      rw [hmin]
      cases eof with
      | true =>
        obtain ⟨hnil, hrd⟩ := heof rfl
        simp only [if_true]
        refine ⟨hp1, ?_⟩
        rw [hdrop _ (le_refl _), hrd]
        simp
      | false =>
        have hpos := hne rfl
        simp only [Bool.false_eq_true, if_false]
        have ih := discardLoop_undisturbed file rounds
          ⟨r1.buffered.drop r1.buffered.length, r1.offset, r1.pending⟩
          (remain - r1.buffered.length) (reader.drop r1.buffered.length) hp1
          (hdrop _ (le_refl _)) (by omega) (by omega)
        rw [List.drop_drop] at ih
        have hsum : r1.buffered.length + (remain - r1.buffered.length) = remain := by omega
        rw [hsum] at ih
        exact ih

theorem discard_undisturbed (file : List Nat) (r : SharedReader) (reader : List Nat) (n : Int)
    (hp : r.pending = none) (hb : r.buffered ++ file.drop r.offset = reader) :
    (SharedReader.Discard file r n).pending = none ∧
    (SharedReader.Discard file r n).buffered ++ file.drop (SharedReader.Discard file r n).offset
      = Discard reader n := by
  unfold SharedReader.Discard Discard
  by_cases hneg : n < 0
  · rw [if_pos hneg, if_pos hneg]; exact ⟨hp, hb⟩
  · rw [if_neg hneg, if_neg hneg]
    by_cases h0 : n = 0
    · rw [if_pos h0, h0]; exact ⟨hp, by simpa using hb⟩
    · rw [if_neg h0]
      exact discardLoop_undisturbed file n.toNat r n.toNat reader hp hb (by omega) (le_refl _)

/-- When no one else moves the read offset of the file, the framer on the
shared reader sends what the framer on the plain byte list sends. -/
theorem sharedLoop_undisturbed (file : List Nat) (N : Int) :
    ∀ (fuel : Nat) (r : SharedReader) (reader : List Nat) (k : Nat) (loc : Int),
    r.pending = none → r.buffered ++ file.drop r.offset = reader →
    readMessageLocationsSharedLoop file N none fuel r k loc
      = readMessageLocationsLoop N fuel reader k loc
  | 0, _, _, _, _, _, _ => by simp [readMessageLocationsSharedLoop, readMessageLocationsLoop]
  | fuel + 1, r, reader, k, loc, hp, hb => by
    have hpk := peek_undisturbed file r reader hp hb
    rw [readMessageLocationsSharedLoop, readMessageLocationsLoop]
    split
    · rfl
    · cases hpeek : SharedReader.Peek file r with
      | mk r1 res =>
        rw [hpeek] at hpk
        simp only at hpk
        rw [← hpk.2.2]
        cases res with
        | none => rfl
        | some buf =>
          simp only
          split
          · rfl
          · have hd := discard_undisturbed file r1 reader
              (toInt64 (((DecodeVarint buf).2 : Int) + toInt64 ((DecodeVarint buf).1 : Int)))
              hpk.1 hpk.2.1
            simp only [SharedReader.handOver]
            rw [sharedLoop_undisturbed file N fuel _ _ (k + 1) _ hd.1 hd.2]

theorem readMessageLocationsShared_undisturbed (file : List Nat) (N : Int) (fuel : Nat) :
    readMessageLocationsShared file N none fuel = readMessageLocations file N fuel :=
  sharedLoop_undisturbed file N fuel ⟨[], 0, none⟩ file 0 0 rfl (by simp)

/-- The sample framer on the file of one record of 12 bytes: when its read at
the end of the file comes before the rewind it sends the one location and
closes; when the rewind comes first it reads the file again and sends the
location (14, 12), which is behind the end of the file. -/
theorem sample_one_record (sched : Nat → Nat) :
    (sched 1 ≠ 0 →
      readMessageLocationsShared (frame [List.replicate 12 0]) 10 (some sched) 11
        = some ⟨[⟨1, 12⟩], Ending.closed⟩) ∧
    (sched 1 = 0 → ∃ rest e,
      readMessageLocationsShared (frame [List.replicate 12 0]) 10 (some sched) 11
        = some ⟨⟨1, 12⟩ :: ⟨14, 12⟩ :: rest, e⟩) := by
  have hp1 : SharedReader.Peek (frame [List.replicate 12 0]) ⟨[], 0, none⟩
      = (⟨frame [List.replicate 12 0], 13, none⟩, some ((frame [List.replicate 12 0]).take 10)) := by
    decide
  have hd : DecodeVarint ((frame [List.replicate 12 0]).take 10) = (12, 1) := by decide
  have hdisc : ∀ p : Option Nat, SharedReader.Discard (frame [List.replicate 12 0])
      ⟨frame [List.replicate 12 0], 13, p⟩ 13 = ⟨[], 13, p⟩ := fun p => rfl
  have hstep1 := sharedLoop_step (frame [List.replicate 12 0]) 10 (some sched) 10 ⟨[], 0, none⟩
    _ 0 0 _ (by unfold capOpen; omega) hp1 (by rw [hd]; decide)
  simp only [hd, SharedReader.handOver] at hstep1
  rw [show toInt64 (((1 : Nat) : Int) + toInt64 ((12 : Nat) : Int)) = 13 from by decide,
    show toInt64 (0 + ((1 : Nat) : Int)) = 1 from by decide,
    show toInt64 (1 + toInt64 ((12 : Nat) : Int)) = 13 from by decide, hdisc] at hstep1
  refine ⟨?_, ?_⟩
  · intro h
    obtain ⟨q, hq⟩ : ∃ q, sched 1 = q + 1 := ⟨sched 1 - 1, by omega⟩
    have hp2 : SharedReader.Peek (frame [List.replicate 12 0]) ⟨[], 13, some (q + 1)⟩
        = (⟨[], 13, some q⟩, none) := rfl
    rw [readMessageLocationsShared, hstep1, hq, sharedLoop_closed _ _ _ 9 _ _ _ _ hp2]
    rfl
  · intro h
    have hp2 : SharedReader.Peek (frame [List.replicate 12 0]) ⟨[], 13, some 0⟩
        = (⟨frame [List.replicate 12 0], 13, none⟩,
            some ((frame [List.replicate 12 0]).take 10)) := by decide
    have hstep2 := sharedLoop_step (frame [List.replicate 12 0]) 10 (some sched) 9
      ⟨[], 13, some 0⟩ _ 1 13 _ (by unfold capOpen; omega) hp2 (by rw [hd]; decide)
    simp only [hd] at hstep2
    rw [show toInt64 (13 + ((1 : Nat) : Int)) = 14 from by decide] at hstep2
    obtain ⟨res, hres⟩ := sharedLoop_total (frame [List.replicate 12 0]) 10 (some sched)
      (by decide) 8
      (SharedReader.Discard (frame [List.replicate 12 0])
        (SharedReader.handOver (some sched) (1 + 1) ⟨frame [List.replicate 12 0], 13, none⟩)
        (toInt64 (((1 : Nat) : Int) + toInt64 ((12 : Nat) : Int))))
      (1 + 1) (toInt64 (14 + toInt64 ((12 : Nat) : Int))) (by decide)
    rw [readMessageLocationsShared, hstep1, h, hstep2, hres]
    exact ⟨res.out, res.ending, rfl⟩

/-- The sample framer on the file of two records of 12 bytes: the second
location empties the buffer, the file has been rewound by then, so the next
`Peek` reads the file from byte 0 again and the third location is (27, 12),
whatever the schedule. -/
theorem sample_two_records (sched : Nat → Nat) : ∃ rest e,
    readMessageLocationsShared (frame [List.replicate 12 0, List.replicate 12 0]) 10
      (some sched) 11 = some ⟨⟨1, 12⟩ :: ⟨14, 12⟩ :: ⟨27, 12⟩ :: rest, e⟩ := by
  have hp1 : SharedReader.Peek (frame [List.replicate 12 0, List.replicate 12 0]) ⟨[], 0, none⟩
      = (⟨frame [List.replicate 12 0, List.replicate 12 0], 26, none⟩,
          some ((frame [List.replicate 12 0, List.replicate 12 0]).take 10)) := by
    decide
  have hd : DecodeVarint ((frame [List.replicate 12 0, List.replicate 12 0]).take 10)
      = (12, 1) := by decide
  have hdisc1 : ∀ p : Option Nat,
      SharedReader.Discard (frame [List.replicate 12 0, List.replicate 12 0])
        ⟨frame [List.replicate 12 0, List.replicate 12 0], 26, p⟩ 13
      = ⟨frame [List.replicate 12 0], 26, p⟩ := fun p => rfl
  have hp2 : ∀ p : Option Nat,
      SharedReader.Peek (frame [List.replicate 12 0, List.replicate 12 0])
        ⟨frame [List.replicate 12 0], 26, p⟩
      = (⟨frame [List.replicate 12 0], 26, p⟩, some ((frame [List.replicate 12 0]).take 10)) :=
    fun p => rfl
  have hd2 : DecodeVarint ((frame [List.replicate 12 0]).take 10) = (12, 1) := by decide
  have hdisc2 : ∀ p : Option Nat,
      SharedReader.Discard (frame [List.replicate 12 0, List.replicate 12 0])
        ⟨frame [List.replicate 12 0], 0, p⟩ 13 = ⟨[], 0, p⟩ := fun p => rfl
  have hp3 : ∀ q : Nat, ∃ p : Option Nat,
      SharedReader.Peek (frame [List.replicate 12 0, List.replicate 12 0]) ⟨[], 0, some q⟩
      = (⟨frame [List.replicate 12 0, List.replicate 12 0], 26, p⟩,
          some ((frame [List.replicate 12 0, List.replicate 12 0]).take 10)) := by
    intro q
    cases q with
    | zero => exact ⟨none, by decide⟩
    | succ k => exact ⟨some k, rfl⟩
  have hstep1 := sharedLoop_step (frame [List.replicate 12 0, List.replicate 12 0]) 10
    (some sched) 10 ⟨[], 0, none⟩ _ 0 0 _ (by unfold capOpen; omega) hp1 (by rw [hd]; decide)
  simp only [hd, SharedReader.handOver] at hstep1
  rw [show toInt64 (((1 : Nat) : Int) + toInt64 ((12 : Nat) : Int)) = 13 from by decide,
    show toInt64 (0 + ((1 : Nat) : Int)) = 1 from by decide,
    show toInt64 (1 + toInt64 ((12 : Nat) : Int)) = 13 from by decide, hdisc1] at hstep1
  have hstep2 := sharedLoop_step (frame [List.replicate 12 0, List.replicate 12 0]) 10
    (some sched) 9 ⟨frame [List.replicate 12 0], 26, some (sched (0 + 1))⟩ _ 1 13 _
    (by unfold capOpen; omega) (hp2 _) (by rw [hd2]; decide)
  simp only [hd2, SharedReader.handOver] at hstep2
  rw [show toInt64 (((1 : Nat) : Int) + toInt64 ((12 : Nat) : Int)) = 13 from by decide,
    show toInt64 (13 + ((1 : Nat) : Int)) = 14 from by decide,
    show toInt64 (14 + toInt64 ((12 : Nat) : Int)) = 26 from by decide, hdisc2] at hstep2
  obtain ⟨p, hp⟩ := hp3 (sched (1 + 1))
  have hstep3 := sharedLoop_step (frame [List.replicate 12 0, List.replicate 12 0]) 10
    (some sched) 8 ⟨[], 0, some (sched (1 + 1))⟩ _ 2 26 _
    (by unfold capOpen; omega) hp (by rw [hd]; decide)
  simp only [hd] at hstep3
  rw [show toInt64 (26 + ((1 : Nat) : Int)) = 27 from by decide] at hstep3
  obtain ⟨res, hres⟩ := sharedLoop_total (frame [List.replicate 12 0, List.replicate 12 0]) 10
    (some sched) (by decide) 7
    (SharedReader.Discard (frame [List.replicate 12 0, List.replicate 12 0])
      (SharedReader.handOver (some sched) (2 + 1)
        ⟨frame [List.replicate 12 0, List.replicate 12 0], 26, p⟩)
      (toInt64 (((1 : Nat) : Int) + toInt64 ((12 : Nat) : Int))))
    (2 + 1) (toInt64 (27 + toInt64 ((12 : Nat) : Int))) (by decide)
  rw [readMessageLocationsShared, hstep1, hstep2, hstep3, hres]
  exact ⟨res.out, res.ending, rfl⟩

theorem infer_of_samples {Msg : Type} (fileName : String) (file : List Nat)
    (msgreg : MessageRegistry Msg) (urls : List String) (sched : Nat → Nat)
    (samples : List messageLocation) (kept : List String)
    (hs : readMessageLocationsShared file 10 (some sched) 11 = some ⟨samples, Ending.closed⟩)
    (hm : matchMessageType file msgreg samples urls = Run.ok kept) :
    inferMessageType fileName file msgreg urls sched = inferFromMatched fileName kept := by
  simp only [inferMessageType, hs, hm]

theorem infer_fatal_of_unreadable {Msg : Type} (fileName : String) (file : List Nat)
    (msgreg : MessageRegistry Msg) (urls : List String) (sched : Nat → Nat)
    (a : List messageLocation) (l : messageLocation) (rest : List messageLocation)
    (e : Ending) (kept : List String)
    (hs : readMessageLocationsShared file 10 (some sched) 11 = some ⟨a ++ l :: rest, e⟩)
    (ha : matchMessageType file msgreg a urls = Run.ok kept)
    (hl : ReadAt file l.msgSize l.loc = none) :
    inferMessageType fileName file msgreg urls sched = Run.fatal := by
  have hm : matchMessageType file msgreg (a ++ l :: rest) urls = Run.fatal := by
    rw [matchMessageType_append, ha]
    simp only [matchMessageType, hl]
  simp only [inferMessageType, hs, hm]

/-- The result of `inferMessageType` on the file of one record of 12 bytes:
that of the name matching on the candidates kept for the record when the
framer reaches the end of the file before the rewind, and `log.Fatal` when the
rewind comes first. -/
theorem infer_one_record {Msg : Type} (fileName : String) (msgreg : MessageRegistry Msg)
    (urls kept : List String) (sched : Nat → Nat)
    (hm : matchMessageType (frame [List.replicate 12 0]) msgreg [⟨1, 12⟩] urls = Run.ok kept) :
    inferMessageType fileName (frame [List.replicate 12 0]) msgreg urls sched
      = if sched 1 = 0 then Run.fatal else inferFromMatched fileName kept := by
  by_cases h : sched 1 = 0
  · obtain ⟨rest, e, hs⟩ := (sample_one_record sched).2 h
    rw [if_pos h]
    exact infer_fatal_of_unreadable fileName _ msgreg urls sched [⟨1, 12⟩] ⟨14, 12⟩ rest e kept
      hs hm (by decide)
  · rw [if_neg h]
    exact infer_of_samples fileName _ msgreg urls sched _ kept ((sample_one_record sched).1 h) hm

/-- On readable samples and candidates that resolve, `matchMessageType` returns
the candidates that pass its test on every sample, in their original order: a
sublist of the candidates, the same for every permutation of the samples. -/
theorem matchMessageType_keeps_compatible {Msg : Type} (file : List Nat)
    (msgreg : MessageRegistry Msg) (samples : List messageLocation) (types : List String)
    (hread : ∀ l ∈ samples, ReadAt file l.msgSize l.loc ≠ none)
    (hres : ∀ t ∈ types, msgreg.Resolve t ≠ none) :
    matchMessageType file msgreg samples types
      = Run.ok (types.filter (fun t => samples.all (fun l => compatibleAt file msgreg l t))) ∧
    (types.filter (fun t => samples.all (fun l => compatibleAt file msgreg l t))).Sublist types ∧
    (∀ samples2 : List messageLocation, samples2.Perm samples →
      matchMessageType file msgreg samples2 types
        = matchMessageType file msgreg samples types) := by
  have h1 := matchMessageType_eq_filter file msgreg samples types hread hres
  refine ⟨h1, List.filter_sublist _, ?_⟩
  intro samples2 hperm
  have h2 := matchMessageType_eq_filter file msgreg samples2 types
    (fun l hl => hread l (hperm.mem_iff.mp hl)) hres
  rw [h1, h2]
  congr 1
  apply List.filter_congr
  intro t _
  exact all_perm _ _ _ hperm

/-- C6 (failing input): a file of two complete records of 12 bytes and five
candidates of which `pkg.A` alone passes the test on both records, in either
order of the samples.  Read alone, the framer sends the locations (1, 12) and
(14, 12).  In `inferMessageType` the rewind `file.Seek(0, 0)` of
`matchMessageType` moves the read offset that the framer's reader shares:
whatever the schedule, the framer reads the file a second time and sends
(27, 12), which cannot be read, and `inferMessageType` ends in `log.Fatal`
where `pkg.A` is the one compatible candidate. -/
theorem C6_rewind_disturbs_sample_framer :
    readMessageLocations (frame [List.replicate 12 0, List.replicate 12 0]) 10 11
      = some ⟨[⟨1, 12⟩, ⟨14, 12⟩], Ending.closed⟩ ∧
    matchMessageType (frame [List.replicate 12 0, List.replicate 12 0]) strictRegistry
      [⟨1, 12⟩, ⟨14, 12⟩] ["pkg.Broken", "pkg.A", "pkg.B", "pkg.Long", "pkg.Static"]
      = Run.ok ["pkg.A"] ∧
    matchMessageType (frame [List.replicate 12 0, List.replicate 12 0]) strictRegistry
      [⟨14, 12⟩, ⟨1, 12⟩] ["pkg.Broken", "pkg.A", "pkg.B", "pkg.Long", "pkg.Static"]
      = Run.ok ["pkg.A"] ∧
    (∀ sched : Nat → Nat, ∃ rest e,
      readMessageLocationsShared (frame [List.replicate 12 0, List.replicate 12 0]) 10
        (some sched) 11 = some ⟨⟨1, 12⟩ :: ⟨14, 12⟩ :: ⟨27, 12⟩ :: rest, e⟩) ∧
    ReadAt (frame [List.replicate 12 0, List.replicate 12 0]) 12 27 = none ∧
    (∀ sched : Nat → Nat,
      inferMessageType "data.pb" (frame [List.replicate 12 0, List.replicate 12 0])
        strictRegistry ["pkg.Broken", "pkg.A", "pkg.B", "pkg.Long", "pkg.Static"] sched
        = Run.fatal) := by
  refine ⟨by decide, by decide, by decide, sample_two_records, by decide, ?_⟩
  intro sched
  obtain ⟨rest, e, hs⟩ := sample_two_records sched
  exact infer_fatal_of_unreadable "data.pb" _ strictRegistry _ sched [⟨1, 12⟩, ⟨14, 12⟩]
    ⟨27, 12⟩ rest e ["pkg.A"] hs (by decide) (by decide)

/-- C7 (failing input): the candidates `pkg.sub.Message` and `pkg.sub.Other`
both survive the sample of the file `message.pb`; the last component of the
first is contained in the file name and that of the second is not, but the
loop compares the component `s[1]`, which is `sub` for both, and
`inferMessageType` returns the empty identifier.  That is its result when the
sample framer reaches the end of the file before the rewind of
`matchMessageType`; when the rewind comes first the run ends in `log.Fatal`. -/
theorem C7_name_tie_break_uses_second_component :
    matchMessageType (frame [List.replicate 12 0]) permissiveRegistry [⟨1, 12⟩]
      ["pkg.sub.Message", "pkg.sub.Other"] = Run.ok ["pkg.sub.Message", "pkg.sub.Other"] ∧
    Contains (ToLower "message.pb".toList) (ToLower "Message".toList) = true ∧
    Contains (ToLower "message.pb".toList) (ToLower "Other".toList) = false ∧
    (splitDot "pkg.sub.Message".toList).get? 1 = some "sub".toList ∧
    inferMessageType "message.pb" (frame [List.replicate 12 0]) permissiveRegistry
      ["pkg.sub.Message", "pkg.sub.Other"] (fun _ => 1) = Run.ok "" ∧
    (∀ sched : Nat → Nat,
      inferMessageType "message.pb" (frame [List.replicate 12 0]) permissiveRegistry
        ["pkg.sub.Message", "pkg.sub.Other"] sched
        = if sched 1 = 0 then Run.fatal else Run.ok "") := by
  have hall : ∀ sched : Nat → Nat,
      inferMessageType "message.pb" (frame [List.replicate 12 0]) permissiveRegistry
        ["pkg.sub.Message", "pkg.sub.Other"] sched
        = if sched 1 = 0 then Run.fatal else Run.ok "" := by
    intro sched
    have hname : inferFromMatched "message.pb" ["pkg.sub.Message", "pkg.sub.Other"] = Run.ok "" := by decide
    rw [infer_one_record "message.pb" permissiveRegistry _ ["pkg.sub.Message", "pkg.sub.Other"] sched (by decide), hname]
  exact ⟨by decide, by decide, by decide, by decide, hall (fun _ => 1), hall⟩

/-- C8 (failing input): the candidates `Message` and `Other`, without a package
prefix, both survive the sample of the file `data.pb` and neither name is
contained in the file name; the index expression `s[1]` is out of range and
`inferMessageType` ends in a run-time panic instead of returning the empty
identifier.  With the survivors `a.log.Foo` and `b.c.Bar` and the file
`log.pb`, where no local name is contained in the file name, it returns
`a.log.Foo`.  These are its results when the sample framer reaches the end of
the file before the rewind of `matchMessageType`; when the rewind comes first
the run ends in `log.Fatal`. -/
theorem C8_ambiguous_survivors_not_rejected :
    matchMessageType (frame [List.replicate 12 0]) permissiveRegistry [⟨1, 12⟩]
      ["Message", "Other"] = Run.ok ["Message", "Other"] ∧
    Contains (ToLower "data.pb".toList) (ToLower "Message".toList) = false ∧
    Contains (ToLower "data.pb".toList) (ToLower "Other".toList) = false ∧
    inferMessageType "data.pb" (frame [List.replicate 12 0]) permissiveRegistry
      ["Message", "Other"] (fun _ => 1) = Run.panic ∧
    (∀ sched : Nat → Nat,
      inferMessageType "data.pb" (frame [List.replicate 12 0]) permissiveRegistry
        ["Message", "Other"] sched = if sched 1 = 0 then Run.fatal else Run.panic) ∧
    Contains (ToLower "log.pb".toList) (ToLower "Foo".toList) = false ∧
    Contains (ToLower "log.pb".toList) (ToLower "Bar".toList) = false ∧
    inferMessageType "log.pb" (frame [List.replicate 12 0]) permissiveRegistry
      ["a.log.Foo", "b.c.Bar"] (fun _ => 1) = Run.ok "a.log.Foo" ∧
    (∀ sched : Nat → Nat,
      inferMessageType "log.pb" (frame [List.replicate 12 0]) permissiveRegistry
        ["a.log.Foo", "b.c.Bar"] sched
        = if sched 1 = 0 then Run.fatal else Run.ok "a.log.Foo") := by
  have hall1 : ∀ sched : Nat → Nat,
      inferMessageType "data.pb" (frame [List.replicate 12 0]) permissiveRegistry
        ["Message", "Other"] sched = if sched 1 = 0 then Run.fatal else Run.panic := by
    intro sched
    have hname : inferFromMatched "data.pb" ["Message", "Other"] = Run.panic := by decide
    rw [infer_one_record "data.pb" permissiveRegistry _ ["Message", "Other"] sched (by decide), hname]
  have hall2 : ∀ sched : Nat → Nat,
      inferMessageType "log.pb" (frame [List.replicate 12 0]) permissiveRegistry
        ["a.log.Foo", "b.c.Bar"] sched
        = if sched 1 = 0 then Run.fatal else Run.ok "a.log.Foo" := by
    intro sched
    have hname : inferFromMatched "log.pb" ["a.log.Foo", "b.c.Bar"] = Run.ok "a.log.Foo" := by decide
    rw [infer_one_record "log.pb" permissiveRegistry _ ["a.log.Foo", "b.c.Bar"] sched (by decide), hname]
  exact ⟨by decide, by decide, by decide, hall1 (fun _ => 1), hall1, by decide, by decide,
    hall2 (fun _ => 1), hall2⟩

end Pbcat
